import Mathlib

/-!
# Verification of the sarac compiler core

A shallow embedding of the parts of the `sarac` compiler (a small
ahead-of-time compiler for the C-like language "Sara") that the
specification's claims are about, together with theorems settling those
claims.

Embedded components (each definition names the Python source it
translates):

* diagnostics (`sarac/utils/error.py`): error collector, summary line,
  immediate/collect reporting modes, parser panic-mode recovery;
* semantic analysis (`sarac/analysis/semantic.py`): the function-call
  branch of the type checker;
* MIR (`sarac/ir/mir.py`): instructions, basic blocks, functions, and the
  AST-to-MIR lowering visitor;
* MIR optimizer (`sarac/ir/mir_optimizer.py`): all five passes, the CFG
  builder, and the capped fixed-point loop;
* the AST DAG-sharing optimizer (`sarac/optimization/optimizer.py`),
  modelled over an explicit arena so that node sharing is observable;
* a reference interpreter for optimized MIR, modelled from the
  specification's description of how the emitted LLVM IR executes.

Modelling conventions:

* Python strings stay `String`; Python ints become `Int` (no machine
  overflow is involved anywhere in the claims); type-descriptor
  singletons are represented by their `repr` strings ("char", "int",
  "float", "string", "void"), which is faithful because the Python
  objects are singletons compared by identity.
* Values flowing through MIR constants are Python `str` lexemes or
  Python `int`s (`Operand.s` / `Operand.i`).  Python `float` values
  (produced only when a numeric lexeme contains a '.') are outside the
  modelled fragment; every claim treated here quantifies over integer
  constants only, and the model conservatively refuses to fold a lexeme
  that is not an integer numeral.
* Python's `//` and `%` on ints are floor division and floor modulus;
  they are modelled by `Int.fdiv` and `Int.fmod`.
* Basic blocks are identified by their labels.  The lowering generates
  pairwise distinct labels within a function ("entry", "BB0", "BB1",
  ...), so keying Python's object identity by label is faithful.
* Unbounded loops (the unreachable-block DFS, the interpreter) take
  explicit fuel; callers pass fuel large enough that the cut-off is
  never hit on the inputs considered.
-/

namespace Sarac

/-! ## Diagnostics (`sarac/utils/error.py`) -/

/-- State of `ErrorCollector` (error.py 98-213), restricted to the fields
the claims depend on.  `errors` holds the codes of collected errors in
order; `collectMode` is the `_collect_mode` attribute consulted by the
`error` decorator (error.py 279). -/
structure Collector where
  errors : List String
  maxErrors : Nat
  collectMode : Bool
deriving DecidableEq

/-- `ErrorCollector.add_error` (error.py 129-139): silently drops the
error once `max_errors` is reached. -/
def addError (c : Collector) (code : String) : Collector :=
  if c.maxErrors ≤ c.errors.length then c
  else { c with errors := c.errors ++ [code] }

/-- The `error` decorator applied to `Error.syntax_error`
(error.py 235-291): records an `E0001` in the collector and, when the
collector is not in collect mode, raises `SaraErrorException`.  The
returned flag is true when the exception is raised. -/
def reportSyntaxError (c : Collector) : Collector × Bool :=
  (addError c "E0001", !c.collectMode)

/-- The collector produced by `get_error_collector` when none was
installed (error.py 226-232): default `ErrorCollector()` arguments with
`_collect_mode = False` ("Immediate mode by default"). -/
def defaultCollector : Collector :=
  { errors := [], maxErrors := 50, collectMode := false }

/-- The same collector with collect mode enabled (the alternate
configuration described by error.py 277-281). -/
def collectingCollector : Collector :=
  { defaultCollector with collectMode := true }

/-- `", ".join` as used by `ErrorCollector.get_summary`. -/
def joinComma : List String → String
  | [] => ""
  | [x] => x
  | x :: xs => x ++ ", " ++ joinComma xs

/-- `ErrorCollector.get_summary` (error.py 194-207) as a function of the
error and warning counts. -/
def getSummary (errorCount warningCount : Nat) : String :=
  let parts : List String :=
    (if 0 < errorCount then [toString errorCount ++ " error(s)"] else []) ++
    (if 0 < warningCount then [toString warningCount ++ " warning(s)"] else [])
  match parts with
  | [] => "compilation successful"
  | ps => "compilation failed with " ++ joinComma ps

/-! Parser panic-mode recovery (`sarac/frontend/parser.py`, `p_error`,
lines 279-296). -/

/-- The token kinds that `Parser.p_error` distinguishes while discarding
tokens: `SEMICOLON`, `LBRACE`, and everything else. -/
inductive TokKind where
  | semicolon
  | lbrace
  | other
deriving DecidableEq

/-- The recovery loop of `Parser.p_error` (parser.py 285-290): call
`self.parser.token()` until it yields `None`, a `SEMICOLON` or an
`LBRACE`; the stopping token is consumed as well.  Returns the tokens
remaining after recovery. -/
def panicSkip : List TokKind → List TokKind
  | [] => []
  | t :: ts => if t = TokKind.semicolon ∨ t = TokKind.lbrace then ts else panicSkip ts

/-- Modelled from the spec: "Lexical and syntax errors accumulate
through a single parse" (spec §7).  The LALR engine itself is the
external `ply.yacc` library (not in the repository); what remains in
`src` is the `p_error` hook and the `error` decorator.  A parse of a
source containing several syntax-error sites is modelled as processing
the sites in order: each site triggers `Error.syntax_error` through the
decorator; if the decorator raises (immediate mode) the parse aborts,
otherwise `p_error`'s recovery resumes and the next site is reached.
Returns the final collector and whether the parse was aborted. -/
def runParse (c : Collector) : List Unit → Collector × Bool
  | [] => (c, false)
  | _ :: sites =>
    let step := reportSyntaxError c
    if step.2 then (step.1, true) else runParse step.1 sites

/-! ## Semantic analysis (`sarac/analysis/semantic.py`) -/

/-- Attribute records attached to identifiers by the symbol pass
(`core/symbols/attributes.py`; the module `sarac.analysis.attributes`
that semantic.py imports is not present under `src`, its class shape is
taken from the identical `core/symbols` copy and from spec §3
"Attributes"). -/
inductive Attributes where
  | function (name : String) (returnType : String) (paramTypes : List String)
  | variableAttr (name : String) (ty : String) (offset : Nat)
deriving DecidableEq

/-- The `FunctionCall` branch of `SemanticsVisitor.visit`
(semantic.py 104-124).  Input: the attribute record resolved onto
`node.identifier.attributes` by the symbol pass (`none` when the lookup
failed) and the types of the already-visited argument expressions.
Output: the list of error codes this branch emits (`Error.type_error`
reports use code `E0004`).  The branch checks only that the callee
resolved to a `FunctionAttributes` record; the argument list is never
inspected, which is why `argTypes` is unused. -/
def semCheckFunctionCall (attrs : Option Attributes)
    (_argTypes : List (Option String)) : List String :=
  match attrs with
  | none => ["E0004"]
  | some (Attributes.function _ _ _) => []
  | some (Attributes.variableAttr _ _ _) => ["E0004"]

/-! ## MIR data model (`sarac/ir/mir.py`) -/

/-- A value appearing in an instruction's operand list.  Python keeps a
heterogeneous list; the operands actually produced are strings (temporary
names, variable names, labels, and numeric lexemes carried over from
`Constant` nodes) and ints (the implicit `Instruction(Op.CONST, 0)` of
mir.py 199 and the results of constant folding). -/
inductive Operand where
  | s : String → Operand
  | i : Int → Operand
deriving DecidableEq

/-- `Instruction` (mir.py 19-32).  `op` is one of the string constants of
class `Op` (mir.py 96-132); `operandTypes` is the `operand_types`
attribute set only for `const` instructions built from AST constants. -/
structure Instruction where
  op : String
  operands : List Operand
  result : Option String := none
  operandTypes : Option (List String) := none
deriving DecidableEq

/-- `BasicBlock` (mir.py 35-52).  Predecessors and successors are stored
as block labels; the lowering generates pairwise distinct labels within a
function, so identifying Python's block object references by label is
faithful. -/
structure BasicBlock where
  label : String
  instructions : List Instruction
  predecessors : List String := []
  successors : List String := []
deriving DecidableEq

/-- `MIRFunction` (mir.py 55-92).  `entryLabel` is the `entry_block`
attribute (set by the optimizer's CFG builder).

The `varTypes` field deserves a note: `MIRFunction.__init__`
(mir.py 58-66) defines *no* `var_types` attribute and no code path in
mir.py ever assigns one, although the LLVM emitter reads
`func.var_types` (llvm.py 217, 251, 262, 398).  The field here stands
for the mapping from local variable names to their types that the
lowering records; it is constantly empty because the source records
nothing, and any Python read of the attribute raises `AttributeError`. -/
structure MIRFunction where
  name : String
  returnType : String
  parameters : List String
  parameterTypes : List String
  varTypes : List (String × String) := []
  blocks : List BasicBlock := []
  entryLabel : Option String := none
  tempCounter : Nat := 0
  labelCounter : Nat := 0
deriving DecidableEq

/-- `MIRFunction.new_temp` (mir.py 68-72). -/
def newTemp (f : MIRFunction) : MIRFunction × String :=
  ({ f with tempCounter := f.tempCounter + 1 }, "t" ++ toString f.tempCounter)

/-- `MIRFunction.new_label` (mir.py 74-78). -/
def newLabel (f : MIRFunction) : MIRFunction × String :=
  ({ f with labelCounter := f.labelCounter + 1 }, "BB" ++ toString f.labelCounter)

/-- `MIRFunction.create_block` (mir.py 80-86). -/
def createBlock (f : MIRFunction) (lbl? : Option String) : MIRFunction × String :=
  let p : MIRFunction × String :=
    match lbl? with
    | some l => (f, l)
    | none => newLabel f
  ({ p.1 with blocks := p.1.blocks ++ [{ label := p.2, instructions := [] }] }, p.2)

/-- `BasicBlock.add_instruction` on the block with the given label. -/
def addInstr (f : MIRFunction) (lbl : String) (ins : Instruction) : MIRFunction :=
  { f with blocks := f.blocks.map fun b =>
      if b.label = lbl then { b with instructions := b.instructions ++ [ins] } else b }

/-- Look a block up by its label (Python passes block object references;
labels are pairwise distinct in lowered functions). -/
def blockOf (f : MIRFunction) (lbl : String) : Option BasicBlock :=
  f.blocks.find? fun b => b.label = lbl

/-- The terminator operations (`Op.RETURN, Op.RETVAL, Op.JUMP, Op.BRANCH`)
as tested by mir.py 194 and mir_optimizer.py 149. -/
def isTermOp (op : String) : Bool :=
  op = "return" || op = "retval" || op = "jump" || op = "branch"

/-- Shorthand constructors for the instruction shapes emitted by the
lowering (`Instruction(Op.STORE, var, temp)` and friends). -/
def storeIns (v t : String) : Instruction :=
  { op := "store", operands := [Operand.s v, Operand.s t] }

def jumpIns (l : String) : Instruction :=
  { op := "jump", operands := [Operand.s l] }

def branchIns (c l1 l2 : String) : Instruction :=
  { op := "branch", operands := [Operand.s c, Operand.s l1, Operand.s l2] }

def returnIns : Instruction :=
  { op := "return", operands := [] }

def retvalIns (t : String) : Instruction :=
  { op := "retval", operands := [Operand.s t] }

def paramIns (t : String) : Instruction :=
  { op := "param", operands := [Operand.s t] }

/-! ## AST fragment consumed by the lowering (`sarac/frontend/ast.py`)

`FunctionCall` and `ArgumentList` are referenced throughout `src`
(parser.py 236, semantic.py 104, mir.py 519, optimizer.py 60) but their
class definitions are absent from `src/sarac/frontend/ast.py`; the
`Expr.call` constructor is modelled from the spec: "`FunctionCall
(callee_identifier, argument_list)`" with a `name` slot and an ordered
argument list (spec §3 "AST"). -/

/-- Expression nodes (`Constant`, `Reference`, `UnaryOperator`,
`BinaryOperator`, and the spec-modelled `FunctionCall`).  `Constant`
carries the lexeme string recorded by the parser and the repr of its
type descriptor. -/
inductive Expr where
  | constant (value : String) (ty : String)
  | ref (name : String)
  | unary (op : String) (arg : Expr)
  | binary (op : String) (lhs rhs : Expr)
  | call (name : String) (args : List Expr)

/-- `Declaration` (ast.py 84-94): type, identifier, optional initializer. -/
structure Decl where
  ty : String
  name : String
  init : Option Expr := none

/-- Statement nodes.  `callStmt` is a `FunctionCall` used as a statement
(mir.py 252-255); `compound` is a `CompoundStatement` appearing in
statement position.  `For` loops are not needed by any claim and are
omitted from the fragment. -/
inductive Stmt where
  | assign (name : String) (rhs : Expr)
  | ret (e : Option Expr)
  | sif (cond : Expr) (thenPart : Stmt) (elsePart : Option Stmt)
  | swhile (cond : Expr) (body : Stmt)
  | callStmt (e : Expr)
  | compound (decls : List Decl) (stmts : List Stmt)

/-- `FunctionDefinition` (ast.py 29-36) with its `CompoundStatement`
body already split into declaration and statement lists. -/
structure FuncDef where
  name : String
  returnType : String
  params : List (String × String)
  decls : List Decl
  stmts : List Stmt

/-! ## AST-to-MIR lowering (`MIRGenerator`, mir.py 135-541) -/

/-- The generator state: the function under construction and the label
of `self.current_block`.  (`var_to_temp` is written by the source but
never read, and is omitted.) -/
structure Gen where
  fn : MIRFunction
  cur : String

/-- The binary operator table of `visit_expression` (mir.py 479-495),
including the fall-back to the raw operator string. -/
def binOpMap (op : String) : String :=
  if op = "+" then "add" else if op = "-" then "sub"
  else if op = "*" then "mul" else if op = "/" then "div"
  else if op = "%" then "mod" else if op = "==" then "eq"
  else if op = "!=" then "ne" else if op = "<" then "lt"
  else if op = "<=" then "le" else if op = ">" then "gt"
  else if op = ">=" then "ge" else op

/-- The unary operator table of `visit_expression` (mir.py 507-512). -/
def unaryOpMap (op : String) : String :=
  if op = "-" then "neg" else if op = "!" then "not" else op

mutual

/-- `MIRGenerator.visit_expression` (mir.py 451-541): emits instructions
into the current block and returns the temporary holding the value. -/
def lowerExpr (g : Gen) : Expr → Gen × String
  | Expr.constant v ty =>
    let (f, t) := newTemp g.fn
    let f := addInstr f g.cur
      { op := "const", operands := [Operand.s v], result := some t,
        operandTypes := some [ty] }
    ({ fn := f, cur := g.cur }, t)
  | Expr.ref n =>
    let (f, t) := newTemp g.fn
    let f := addInstr f g.cur
      { op := "load", operands := [Operand.s n], result := some t }
    ({ fn := f, cur := g.cur }, t)
  | Expr.binary op l r =>
    let (g, lt) := lowerExpr g l
    let (g, rt) := lowerExpr g r
    let (f, t) := newTemp g.fn
    let f := addInstr f g.cur
      { op := binOpMap op, operands := [Operand.s lt, Operand.s rt], result := some t }
    ({ fn := f, cur := g.cur }, t)
  | Expr.unary op e =>
    let (g, et) := lowerExpr g e
    let (f, t) := newTemp g.fn
    let f := addInstr f g.cur
      { op := unaryOpMap op, operands := [Operand.s et], result := some t }
    ({ fn := f, cur := g.cur }, t)
  | Expr.call name args =>
    let g := lowerArgs g args
    let (f, t) := newTemp g.fn
    let f := addInstr f g.cur
      { op := "call", operands := [Operand.s name], result := some t }
    ({ fn := f, cur := g.cur }, t)
termination_by structural e => e

/-- The argument loop of the `FunctionCall` case (mir.py 522-529): each
argument is lowered and immediately followed by a `param` instruction. -/
def lowerArgs (g : Gen) : List Expr → Gen
  | [] => g
  | a :: rest =>
    let (g, t) := lowerExpr g a
    let g : Gen :=
      { g with fn := addInstr g.fn g.cur (paramIns t) }
    lowerArgs g rest
termination_by structural l => l

end

/-- `MIRGenerator.visit_declaration` (mir.py 223-238): only declarations
with an initializer emit code (a `store` of the lowered initializer).
Nothing is recorded into any `var_types` mapping (no such attribute
exists; see `MIRFunction.varTypes`). -/
def lowerDecl (g : Gen) (d : Decl) : Gen :=
  match d.init with
  | none => g
  | some e =>
    let (g, t) := lowerExpr g e
    { g with fn := addInstr g.fn g.cur (storeIns d.name t) }

/-- The declaration loop of `visit_compound_statement` (mir.py 209-214). -/
def lowerDecls (g : Gen) : List Decl → Gen
  | [] => g
  | d :: ds => lowerDecls (lowerDecl g d) ds

mutual

/-- `MIRGenerator.visit_statement` (mir.py 240-258).  A
`CompoundStatement` in statement position falls into the generic
`node.accept_children(self)` branch, which bottoms out in
`MIRGenerator.visit`'s own generic branch and therefore emits no
instructions at all (the dedicated `visit_compound_statement` is invoked
only for function bodies and for `if` branches). -/
def lowerStmt (g : Gen) : Stmt → Gen
  | Stmt.assign name rhs =>
    -- visit_assignment (mir.py 260-272)
    let (g, t) := lowerExpr g rhs
    { g with fn := addInstr g.fn g.cur (storeIns name t) }
  | Stmt.ret none =>
    -- visit_return (mir.py 274-284)
    { g with fn := addInstr g.fn g.cur returnIns }
  | Stmt.ret (some e) =>
    let (g, t) := lowerExpr g e
    { g with fn := addInstr g.fn g.cur (retvalIns t) }
  | Stmt.callStmt e => (lowerExpr g e).1
  | Stmt.compound _ _ => g
  | Stmt.swhile cond body =>
    -- visit_while (mir.py 367-395)
    let (f, condLbl) := createBlock g.fn none
    let (f, bodyLbl) := createBlock f none
    let (f, mergeLbl) := createBlock f none
    let f := addInstr f g.cur (jumpIns condLbl)
    let g : Gen := { fn := f, cur := condLbl }
    let (g, condTemp) := lowerExpr g cond
    let g : Gen := { g with fn := addInstr g.fn g.cur (branchIns condTemp bodyLbl mergeLbl) }
    let g : Gen := { g with cur := bodyLbl }
    let g := lowerStmt g body
    let g : Gen := { g with fn := addInstr g.fn g.cur (jumpIns condLbl) }
    { g with cur := mergeLbl }
  | Stmt.sif cond thenPart elsePart =>
    -- visit_if (mir.py 286-365)
    let (f, thenLbl) := createBlock g.fn none
    let p : MIRFunction × Option String :=
      match elsePart with
      | some _ => let (f, l) := createBlock f none; (f, some l)
      | none => (f, none)
    let elseLbl? := p.2
    let g : Gen := { g with fn := p.1 }
    let (g, condTemp) := lowerExpr g cond
    let entryLbl := g.cur
    -- process the then branch (mir.py 298-305); visit_if dispatches a
    -- CompoundStatement body to visit_compound_statement, anything else
    -- to visit_statement
    let g : Gen := { g with cur := thenLbl }
    let g :=
      match thenPart with
      | Stmt.compound ds ss => lowerStmts (lowerDecls g ds) ss
      | s' => lowerStmt g s' 
    -- mir.py 307-311: inspect the *current* block's last instruction
    let thenReturns :=
      match (blockOf g.fn g.cur).bind (fun b => b.instructions.getLast?) with
      | some ins => ins.op = "return" || ins.op = "retval"
      | none => false
    -- process the else branch (mir.py 313-326)
    let q : Gen × Bool :=
      match elsePart, elseLbl? with
      | some els, some el =>
        let g : Gen := { g with cur := el }
        let g :=
          match els with
          | Stmt.compound ds ss => lowerStmts (lowerDecls g ds) ss
          | s' => lowerStmt g s' 
        let er :=
          match (blockOf g.fn g.cur).bind (fun b => b.instructions.getLast?) with
          | some ins => ins.op = "return" || ins.op = "retval"
          | none => false
        (g, er)
      | _, _ => (g, false)
    let g := q.1
    let elseReturns := q.2
    -- merge block creation (mir.py 328-342)
    let mergeNeeded := !thenReturns || (elseLbl?.isSome && !elseReturns)
    let r : Gen × Option String :=
      if mergeNeeded then
        let (f, m) := createBlock g.fn none
        let g : Gen := { g with fn := f }
        let g : Gen :=
          if !thenReturns then
            let g : Gen := { g with cur := thenLbl }
            { g with fn := addInstr g.fn g.cur (jumpIns m) }
          else g
        let g : Gen :=
          match elseLbl? with
          | some el =>
            if !elseReturns then
              let g : Gen := { g with cur := el }
              { g with fn := addInstr g.fn g.cur (jumpIns m) }
            else g
          | none => g
        (g, some m)
      else (g, none)
    let g := r.1
    let mergeLbl? := r.2
    -- branch instruction appended to the pre-branch block (mir.py 344-360);
    -- note that with no else and a returning then branch both targets are
    -- the then block's label
    let targets : String × String :=
      match elseLbl?, mergeLbl? with
      | some el, _ => (thenLbl, el)
      | none, some m => (thenLbl, m)
      | none, none => (thenLbl, thenLbl)
    let fn' := addInstr g.fn entryLbl (branchIns condTemp targets.1 targets.2)
    let g : Gen := { g with fn := fn' }
    -- mir.py 362-365: continue in the merge block only if it exists
    match mergeLbl? with
    | some m => { g with cur := m }
    | none => g
termination_by structural s => s

/-- The statement loop of `visit_compound_statement` (mir.py 216-221). -/
def lowerStmts (g : Gen) : List Stmt → Gen
  | [] => g
  | s :: ss => lowerStmts (lowerStmt g s) ss
termination_by structural l => l

end

/-- `MIRGenerator.visit_compound_statement` (mir.py 207-221):
declarations first, then statements. -/
def lowerCompound (g : Gen) (ds : List Decl) (ss : List Stmt) : Gen :=
  lowerStmts (lowerDecls g ds) ss

/-- `MIRGenerator.visit_function_definition` (mir.py 157-205), including
the implicit `const 0; retval t` (non-void) or `return` (void) that is
appended only when lowering finishes with `self.current_block` still the
entry block. -/
def lowerFunction (fd : FuncDef) : MIRFunction :=
  let f : MIRFunction :=
    { name := fd.name, returnType := fd.returnType,
      parameters := fd.params.map Prod.fst,
      parameterTypes := fd.params.map Prod.snd }
  let (f, entryLbl) := createBlock f (some "entry")
  let g : Gen := { fn := f, cur := entryLbl }
  let g := lowerCompound g fd.decls fd.stmts
  if g.cur = "entry" then
    let unterminated :=
      match (blockOf g.fn "entry").bind (fun b => b.instructions.getLast?) with
      | none => true
      | some ins => !isTermOp ins.op
    if unterminated then
      if fd.returnType ≠ "void" then
        let (f, t) := newTemp g.fn
        let f := addInstr f "entry"
          { op := "const", operands := [Operand.i 0], result := some t }
        addInstr f "entry" (retvalIns t)
      else
        addInstr g.fn "entry" returnIns
    else g.fn
  else g.fn

/-- `MIRGenerator.visit` over a `TranslationUnitList` of function
definitions (mir.py 144-155). -/
def lowerProgram (fds : List FuncDef) : List MIRFunction :=
  fds.map lowerFunction

/-! ## MIR optimizer (`sarac/ir/mir_optimizer.py`, class `MIROptimizer`) -/

/-- Does any block of the list carry the given label (membership in the
`label_to_block` dictionary of `_build_cfg`, mir_optimizer.py 75-79)? -/
def labelResolves (blocks : List BasicBlock) (l : String) : Bool :=
  blocks.any fun b => b.label = l

/-- The branch/jump target labels named by one instruction, in the order
`_build_cfg` examines them (mir_optimizer.py 92-124): `jump` contributes
`operands[0]`; `branch` (when it has at least two operands) contributes
`operands[1]` and, if present, `operands[2]`. -/
def instrTargets (i : Instruction) : List String :=
  if i.op = "jump" then
    match i.operands.head? with
    | some (Operand.s l) => [l]
    | _ => []
  else if i.op = "branch" then
    match i.operands with
    | _ :: Operand.s t :: rest =>
      t :: (match rest.head? with
            | some (Operand.s e) => [e]
            | _ => [])
    | _ => []
  else []

/-- The successor labels of a block: resolved targets of all its
instructions, first occurrence kept (`if target_block not in
block.successors`, mir_optimizer.py 101). -/
def blockSuccs (blocks : List BasicBlock) (b : BasicBlock) : List String :=
  b.instructions.foldl
    (fun acc i =>
      (instrTargets i).foldl
        (fun acc l =>
          if labelResolves blocks l && !acc.contains l then acc ++ [l] else acc)
        acc)
    []

/-- `MIROptimizer._build_cfg` (mir_optimizer.py 68-133): clears and
recomputes predecessor/successor lists and designates the entry block
(the block labelled "entry", else the first block). -/
def buildCfg (f : MIRFunction) : MIRFunction :=
  let withSuccs := f.blocks.map fun b =>
    { b with predecessors := [], successors := blockSuccs f.blocks b }
  let final := withSuccs.map fun b =>
    { b with predecessors :=
        (withSuccs.filter fun a => a.successors.contains b.label).map (·.label) }
  let entry : Option String :=
    if f.blocks.any (fun b => b.label = "entry") then some "entry"
    else (f.blocks.head?).map (·.label)
  { f with blocks := final, entryLabel := entry }

/-- The per-block truncation of `_remove_dead_instructions`
(mir_optimizer.py 135-159): keep instructions up to and including the
first terminator. -/
def takeThroughTerm : List Instruction → List Instruction
  | [] => []
  | x :: xs => if isTermOp x.op then [x] else x :: takeThroughTerm xs

/-- `MIROptimizer._remove_dead_instructions` (mir_optimizer.py 135-159). -/
def removeDeadInstructions (f : MIRFunction) : MIRFunction × Bool :=
  let newBlocks := f.blocks.map fun b =>
    { b with instructions := takeThroughTerm b.instructions }
  ({ f with blocks := newBlocks },
   (f.blocks.zip newBlocks).any fun p =>
     p.2.instructions.length != p.1.instructions.length)

/-- The worklist DFS of `_remove_unreachable_blocks`
(mir_optimizer.py 171-196): pops from the end of `to_visit`, records the
block, and pushes the not-yet-reached successors.  The stack is modelled
head-first (the head is Python's list end); the fuel argument dominates
the total number of pops. -/
def dfsReach (blocks : List BasicBlock) : Nat → List String → List String → List String
  | 0, reach, _ => reach
  | _ + 1, reach, [] => reach
  | fuel + 1, reach, l :: stack =>
    if reach.contains l then dfsReach blocks fuel reach stack
    else
      let reach := reach ++ [l]
      let succs := match blocks.find? (fun b => b.label = l) with
        | some b => b.successors
        | none => []
      dfsReach blocks fuel reach ((succs.filter fun s2 => !reach.contains s2).reverse ++ stack)

/-- `MIROptimizer._remove_unreachable_blocks` (mir_optimizer.py 161-202):
DFS from the entry block along the *stored* successor lists (the CFG as
last built), then drop unreached blocks. -/
def removeUnreachableBlocks (f : MIRFunction) : MIRFunction × Bool :=
  match f.blocks with
  | [] => (f, false)
  | first :: _ =>
    let e := if f.blocks.any (fun b => b.label = "entry") then "entry" else first.label
    let fuel := 1 + f.blocks.length +
      f.blocks.foldl (fun n b => n + b.successors.length) 0
    let reach := dfsReach f.blocks fuel [] [e]
    let newBlocks := f.blocks.filter fun b => reach.contains b.label
    ({ f with blocks := newBlocks }, newBlocks.length != f.blocks.length)

/-! ### Constant folding (`_constant_folding`, mir_optimizer.py 204-387) -/

/-- The `constants` dictionary mapping temporary names to the values of
their defining `const` instructions.  It is created once per function
(mir_optimizer.py 214) and therefore persists across blocks. -/
abbrev Constants := List (String × Operand)

def lookupConst (c : Constants) (k : String) : Option Operand :=
  (c.find? fun p => p.1 = k).map (·.2)

def insertConst (c : Constants) (k : String) (v : Operand) : Constants :=
  (k, v) :: c

/-- `int(s)` applied under the guard `s.isdigit() or (s.startswith('-')
and s[1:].isdigit())` (mir_optimizer.py 245, 250, ...).  A lexeme that
fails the guard goes through Python's `float(s)`; `float` values are
outside the modelled fragment, so such lexemes are treated as
unconvertible (hence never folded). -/
def natOfDigits (cs : List Char) : Nat :=
  cs.foldl (fun acc c => acc * 10 + (c.toNat - 48)) 0

def parseIntLex (s : String) : Option Int :=
  match s.data with
  | [] => none
  | '-' :: rest =>
    if rest ≠ [] && rest.all Char.isDigit then some (-(Int.ofNat (natOfDigits rest)))
    else none
  | cs =>
    if cs.all Char.isDigit then some (Int.ofNat (natOfDigits cs)) else none

/-- Operand resolution of the folder (mir_optimizer.py 239-252): a string
operand is looked up in `constants` (an absent key resolves to nothing);
an int operand is its own value; a looked-up lexeme string is converted
by `parseIntLex`. -/
def resolveNum (c : Constants) (o : Operand) : Option Int :=
  match o with
  | Operand.i n => some n
  | Operand.s name =>
    match lookupConst c name with
    | some (Operand.i n) => some n
    | some (Operand.s lex) => parseIntLex lex
    | none => none

/-- One step of `_constant_folding`'s instruction loop
(mir_optimizer.py 219-383): returns the updated constants map, the
instruction appended to `new_instructions` (exactly one per input
instruction on every path), and whether a fold happened.  Python's `//`
and `%` on ints are floor division/modulus, hence `Int.fdiv`/`Int.fmod`. -/
def foldOne (c : Constants) (ins : Instruction) : Constants × Instruction × Bool :=
  if ins.op = "jump" || ins.op = "branch" || ins.op = "return" || ins.op = "retval"
      || ins.op = "call" || ins.op = "param" then
    (c, ins, false)
  else if ins.op = "const" then
    match ins.result, ins.operands.head? with
    | some r, some v => (insertConst c r v, ins, false)
    | _, _ => (c, ins, false)
  else if ins.op = "add" || ins.op = "sub" || ins.op = "mul"
      || ins.op = "div" || ins.op = "mod" then
    match ins.operands with
    | l :: r :: _ =>
      match resolveNum c l, resolveNum c r with
      | some lv, some rv =>
        if (ins.op = "div" || ins.op = "mod") && rv = 0 then
          -- mir_optimizer.py 264-267 and 274-277: don't fold division or
          -- modulo by zero; the instruction is appended unchanged
          (c, ins, false)
        else
          let v : Int :=
            if ins.op = "add" then lv + rv
            else if ins.op = "sub" then lv - rv
            else if ins.op = "mul" then lv * rv
            else if ins.op = "div" then Int.fdiv lv rv
            else Int.fmod lv rv
          let c' := match ins.result with
            | some r2 => insertConst c r2 (Operand.i v)
            | none => c
          (c', { op := "const", operands := [Operand.i v], result := ins.result }, true)
      | _, _ => (c, ins, false)
    | _ => (c, ins, false)
  else if ins.op = "neg" || ins.op = "not" then
    match ins.operands with
    | o :: _ =>
      match resolveNum c o with
      | some v0 =>
        let v : Int := if ins.op = "neg" then -v0 else if v0 = 0 then 1 else 0
        let c' := match ins.result with
          | some r2 => insertConst c r2 (Operand.i v)
          | none => c
        (c', { op := "const", operands := [Operand.i v], result := ins.result }, true)
      | none => (c, ins, false)
    | _ => (c, ins, false)
  else if ins.op = "eq" || ins.op = "ne" || ins.op = "lt"
      || ins.op = "le" || ins.op = "gt" || ins.op = "ge" then
    match ins.operands with
    | l :: r :: _ =>
      match resolveNum c l, resolveNum c r with
      | some lv, some rv =>
        let b : Bool :=
          if ins.op = "eq" then lv = rv
          else if ins.op = "ne" then lv ≠ rv
          else if ins.op = "lt" then lv < rv
          else if ins.op = "le" then lv ≤ rv
          else if ins.op = "gt" then rv < lv
          else rv ≤ lv
        let v : Int := if b then 1 else 0
        let c' := match ins.result with
          | some r2 => insertConst c r2 (Operand.i v)
          | none => c
        (c', { op := "const", operands := [Operand.i v], result := ins.result }, true)
      | _, _ => (c, ins, false)
    | _ => (c, ins, false)
  else
    -- load, store (mir_optimizer.py 369-380) and any other op: keep
    (c, ins, false)

/-- The instruction loop of `_constant_folding` over one block. -/
def foldInstrs (c : Constants) : List Instruction → Constants × List Instruction × Bool
  | [] => (c, [], false)
  | x :: xs =>
    let (c1, y, ch1) := foldOne c x
    let (c2, ys, ch2) := foldInstrs c1 xs
    (c2, y :: ys, ch1 || ch2)

/-- The block loop of `_constant_folding`, threading the function-level
constants map. -/
def foldBlocks (c : Constants) : List BasicBlock → List BasicBlock × Bool
  | [] => ([], false)
  | b :: bs =>
    let (c1, is, ch1) := foldInstrs c b.instructions
    let (bs', ch2) := foldBlocks c1 bs
    ({ b with instructions := is } :: bs', ch1 || ch2)

/-- `MIROptimizer._constant_folding` (mir_optimizer.py 204-387). -/
def constantFolding (f : MIRFunction) : MIRFunction × Bool :=
  let r := foldBlocks [] f.blocks
  ({ f with blocks := r.1 }, r.2)

/-! ### Dead-store elimination (`_dead_store_elimination`,
mir_optimizer.py 389-429) -/

/-- The variable read by a `load` instruction (guard: at least one
operand, mir_optimizer.py 405). -/
def loadVar? (i : Instruction) : Option String :=
  if i.op = "load" then
    match i.operands.head? with
    | some (Operand.s v) => some v
    | _ => none
  else none

/-- The variable written by a `store` instruction (guard: at least two
operands, mir_optimizer.py 408). -/
def storeVar? (i : Instruction) : Option String :=
  if i.op = "store" then
    match i.operands with
    | Operand.s v :: _ :: _ => some v
    | _ => none
  else none

/-- Index of the last `store` to `v` in the block (the `last_store`
dictionary after the first pass, mir_optimizer.py 403-410). -/
def lastStoreIdx (instrs : List Instruction) (v : String) : Option Nat :=
  (((instrs.enum.filter fun p => storeVar? p.2 == some v).map (·.1)).getLast?)

/-- The second pass of `_dead_store_elimination` over one block
(mir_optimizer.py 412-427): drop a `store` whose variable is never
loaded in this block and which is the last store to that variable. -/
def dseBlock (instrs : List Instruction) : List Instruction :=
  let loads := instrs.filterMap loadVar?
  ((instrs.enum.filter fun p =>
      match storeVar? p.2 with
      | some v =>
        if loads.contains v then true
        else !(lastStoreIdx instrs v == some p.1)
      | none => true).map Prod.snd)

/-- `MIROptimizer._dead_store_elimination` (mir_optimizer.py 389-429). -/
def deadStoreElim (f : MIRFunction) : MIRFunction × Bool :=
  let newBlocks := f.blocks.map fun b => { b with instructions := dseBlock b.instructions }
  ({ f with blocks := newBlocks },
   (f.blocks.zip newBlocks).any fun p =>
     p.2.instructions.length != p.1.instructions.length)

/-! ### Empty-block removal (`_remove_empty_blocks`,
mir_optimizer.py 431-496) -/

/-- Is the block empty or a lone unconditional jump
(mir_optimizer.py 447-452)? -/
def emptyish (b : BasicBlock) : Bool :=
  b.instructions.isEmpty ||
  (b.instructions.length = 1 &&
    (match b.instructions.head? with
     | some i => i.op = "jump"
     | none => false))

/-- Rewrite the string operand at `idx` when it equals `fromLbl`. -/
def rewriteOperandAt (ops : List Operand) (idx : Nat) (fromLbl toLbl : String) :
    List Operand :=
  match ops.get? idx with
  | some (Operand.s l) => if l = fromLbl then ops.set idx (Operand.s toLbl) else ops
  | _ => ops

/-- The predecessor-redirection of `_remove_empty_blocks`
(mir_optimizer.py 476-489): retarget `jump` operands[0] and `branch`
operands[1]/[2] that equal the removed block's label.  The opcode is
never changed. -/
def redirectIns (fromLbl toLbl : String) (i : Instruction) : Instruction :=
  if i.op = "jump" then
    if 0 < i.operands.length then
      { i with operands := rewriteOperandAt i.operands 0 fromLbl toLbl }
    else i
  else if i.op = "branch" then
    if 2 ≤ i.operands.length then
      let ops := rewriteOperandAt i.operands 1 fromLbl toLbl
      let ops := if 2 < i.operands.length then rewriteOperandAt ops 2 fromLbl toLbl else ops
      { i with operands := ops }
    else i
  else i

/-- Processing of a single collected empty block
(mir_optimizer.py 458-494): determine its target (its jump's operand, or
its first stored successor when it has no instructions), skip it if no
target can be determined, otherwise redirect all its recorded
predecessors and remove it. -/
def processEmpty (blocks : List BasicBlock) (lbl : String) : List BasicBlock × Bool :=
  match blocks.find? (fun b => b.label = lbl) with
  | none => (blocks, false)
  | some blk =>
    let target? : Option String :=
      match blk.instructions.head? with
      | some jins =>
        match jins.operands.head? with
        | some (Operand.s l) => some l
        | _ => none
      | none => blk.successors.head?
    match target? with
    | none => (blocks, false)
    | some target =>
      let blocks := blocks.map fun b =>
        if blk.predecessors.contains b.label then
          { b with instructions := b.instructions.map (redirectIns lbl target) }
        else b
      (blocks.filter fun b => b.label ≠ lbl, true)

/-- `MIROptimizer._remove_empty_blocks` (mir_optimizer.py 431-496): the
empty blocks are collected up front and then processed in order against
the evolving block list. -/
def removeEmptyBlocks (f : MIRFunction) : MIRFunction × Bool :=
  let emptyLabels :=
    (f.blocks.filter fun b => b.label ≠ "entry" && emptyish b).map (·.label)
  match emptyLabels with
  | [] => (f, false)
  | _ =>
    let r := emptyLabels.foldl
      (fun (acc : List BasicBlock × Bool) l =>
        let (bs', ch') := processEmpty acc.1 l
        (bs', acc.2 || ch'))
      (f.blocks, false)
    ({ f with blocks := r.1 }, r.2)

/-! ### The capped fixed-point loop (`MIROptimizer.optimize`,
mir_optimizer.py 21-66) -/

/-- One iteration of the optimization loop (mir_optimizer.py 43-64): the
five passes in order, rebuilding the CFG after a pass that removed
blocks. -/
def sweep (f : MIRFunction) : MIRFunction × Bool :=
  let r1 := removeDeadInstructions f
  let r2 := removeUnreachableBlocks r1.1
  let f2 := if r2.2 then buildCfg r2.1 else r2.1
  let r3 := constantFolding f2
  let r4 := deadStoreElim r3.1
  let r5 := removeEmptyBlocks r4.1
  let f5 := if r5.2 then buildCfg r5.1 else r5.1
  (f5, r1.2 || r2.2 || r3.2 || r4.2 || r5.2)

/-- The `while changed and iteration < max_iterations` loop
(mir_optimizer.py 36-64): at most `n` sweeps, stopping early at a sweep
that reports no change. -/
def optLoop : Nat → MIRFunction → MIRFunction
  | 0, f => f
  | n + 1, f =>
    let r := sweep f
    if r.2 then optLoop n r.1 else r.1

/-- `optimize_mir` / `MIROptimizer.optimize` (mir_optimizer.py 21-66,
499-510): build the CFG, then iterate the passes with the cap
`max_iterations = 10`. -/
def optimizeMir (f : MIRFunction) : MIRFunction :=
  optLoop 10 (buildCfg f)

/-! ## A reference interpreter for optimized MIR

Modelled from the spec: §4.9 and §8 describe how the emitted LLVM IR
behaves when compiled and executed (the LLVM toolchain is an external
collaborator, spec §1).  The interpreter gives integer-typed MIR the
semantics the emitter reifies in LLVM IR: `load`/`store` go through the
variable's slot, arithmetic is signed integer arithmetic (`sdiv`/`srem`
truncate toward zero, hence `Int.tdiv`/`Int.tmod`), `branch` tests the
condition against zero, `call f` consumes the last N pending `param`
values where N is the callee's declared parameter count, and the
variadic built-in `print` consumes all pending `param`s and appends
their values to the output (spec §4.9 "Call lowering").  Variables read
before any store yield zero (the zero-initialized `alloca` slots).
Execution is a small-step machine over a call stack, driven by fuel that
dominates the total number of executed instructions. -/

/-- Association-list environments for variables and temporaries. -/
abbrev Env := List (String × Int)

def envGet (e : Env) (k : String) : Int :=
  (((e.find? fun p => p.1 = k)).map (·.2)).getD 0

def envSet (e : Env) (k : String) (v : Int) : Env :=
  (k, v) :: e

/-- The numeric value of a `const` operand: an int literal, or a numeric
lexeme parsed as the emitter's `get_llvm_value` does (llvm.py 1226-1231). -/
def constVal (o : Operand) : Int :=
  match o with
  | Operand.i n => n
  | Operand.s lex => (parseIntLex lex).getD 0

/-- The value of an operand that references a temporary (or is already a
folded int). -/
def tempVal (temps : Env) (o : Operand) : Int :=
  match o with
  | Operand.s name => envGet temps name
  | Operand.i n => n

/-- The pure arithmetic/comparison/unary operations, with the semantics
the LLVM emitter gives them (llvm.py 461-813): signed integer add, sub,
mul, `sdiv`, `srem`, `icmp` producing 0/1, `sub 0, a` for neg and
`xor 1` for not. -/
def evalPure (temps : Env) (ins : Instruction) : Option Int :=
  if ins.op = "neg" || ins.op = "not" then
    match ins.operands.head? with
    | some o =>
      let v := tempVal temps o
      some (if ins.op = "neg" then -v else if v = 0 then 1 else 0)
    | none => none
  else
    match ins.operands with
    | l :: r :: _ =>
      let a := tempVal temps l
      let b := tempVal temps r
      if ins.op = "add" then some (a + b)
      else if ins.op = "sub" then some (a - b)
      else if ins.op = "mul" then some (a * b)
      else if ins.op = "div" then some (Int.tdiv a b)
      else if ins.op = "mod" then some (Int.tmod a b)
      else if ins.op = "eq" then some (if a = b then 1 else 0)
      else if ins.op = "ne" then some (if a = b then 0 else 1)
      else if ins.op = "lt" then some (if a < b then 1 else 0)
      else if ins.op = "le" then some (if a ≤ b then 1 else 0)
      else if ins.op = "gt" then some (if b < a then 1 else 0)
      else if ins.op = "ge" then some (if b ≤ a then 1 else 0)
      else none
    | _ => none

/-- Effect of a straight-line (non-control) instruction on the variable
environment, the temporaries, and the pending `param` queue. -/
def stepIns (locals temps : Env) (pending : List Int) (ins : Instruction) :
    Env × Env × List Int :=
  if ins.op = "const" then
    match ins.result, ins.operands.head? with
    | some r, some v => (locals, envSet temps r (constVal v), pending)
    | _, _ => (locals, temps, pending)
  else if ins.op = "load" then
    match ins.result, ins.operands.head? with
    | some r, some (Operand.s v) => (locals, envSet temps r (envGet locals v), pending)
    | _, _ => (locals, temps, pending)
  else if ins.op = "store" then
    match ins.operands with
    | Operand.s v :: t :: _ => (envSet locals v (tempVal temps t), temps, pending)
    | _ => (locals, temps, pending)
  else if ins.op = "param" then
    match ins.operands.head? with
    | some o => (locals, temps, pending ++ [tempVal temps o])
    | none => (locals, temps, pending)
  else
    match evalPure temps ins, ins.result with
    | some v, some r => (locals, envSet temps r v, pending)
    | _, _ => (locals, temps, pending)

/-- One activation record of the machine: the function being executed,
its variable and temporary environments, its pending `param` queue, the
instructions still to run in the current block, and (for a frame
suspended at a `call`) the temporary awaiting the callee's value. -/
structure Frame where
  fn : MIRFunction
  locals : Env
  temps : Env
  pending : List Int
  rest : List Instruction
  await : Option String := none

/-- The frame that starts executing `f` on the given argument values:
parameters bound in order, at the block labelled "entry" (or the first
block). -/
def startFrame (f : MIRFunction) (args : List Int) : Option Frame :=
  let entry :=
    if f.blocks.any (fun b => b.label = "entry") then "entry"
    else match f.blocks.head? with
         | some b => b.label
         | none => ""
  (blockOf f entry).map fun b =>
    { fn := f, locals := f.parameters.zip args, temps := [], pending := [],
      rest := b.instructions }

/-- Result of one machine step. -/
inductive StepRes where
  | done (v : Int) (out : List Int)
  | next (stack : List Frame) (out : List Int)
  | stuck

/-- One step of the machine: execute the next instruction of the top
frame.  Falling off a block's end without a terminator, or any
ill-formed instruction, is a stuck state. -/
def machineStep (P : List MIRFunction) (stack : List Frame) (out : List Int) : StepRes :=
  match stack with
  | [] => StepRes.stuck
  | fr :: below =>
    match fr.rest with
    | [] => StepRes.stuck
    | ins :: rest =>
      if ins.op = "retval" || ins.op = "return" then
        let v? : Option Int :=
          if ins.op = "return" then some 0
          else (ins.operands.head?).map (tempVal fr.temps)
        match v? with
        | none => StepRes.stuck
        | some v =>
          match below with
          | [] => StepRes.done v out
          | caller :: belowRest =>
            let temps := match caller.await with
              | some r => envSet caller.temps r v
              | none => caller.temps
            StepRes.next ({ caller with temps := temps, await := none } :: belowRest) out
      else if ins.op = "jump" then
        match ins.operands.head? with
        | some (Operand.s l) =>
          match blockOf fr.fn l with
          | some b => StepRes.next ({ fr with rest := b.instructions } :: below) out
          | none => StepRes.stuck
        | _ => StepRes.stuck
      else if ins.op = "branch" then
        match ins.operands with
        | c :: Operand.s l1 :: Operand.s l2 :: _ =>
          let l := if tempVal fr.temps c = 0 then l2 else l1
          match blockOf fr.fn l with
          | some b => StepRes.next ({ fr with rest := b.instructions } :: below) out
          | none => StepRes.stuck
        | _ => StepRes.stuck
      else if ins.op = "call" then
        match ins.operands.head? with
        | some (Operand.s fname) =>
          if fname = "print" then
            -- print: consume all pending params, emit them, discard result
            let temps := match ins.result with
              | some r => envSet fr.temps r 0
              | none => fr.temps
            StepRes.next
              ({ fr with temps := temps, pending := [], rest := rest } :: below)
              (out ++ fr.pending)
          else
            match P.find? (fun g2 => g2.name = fname) with
            | none => StepRes.stuck
            | some callee =>
              let n := callee.parameters.length
              let args := fr.pending.drop (fr.pending.length - n)
              let pending := fr.pending.take (fr.pending.length - n)
              match startFrame callee args with
              | none => StepRes.stuck
              | some newFr =>
                StepRes.next
                  (newFr ::
                    { fr with pending := pending, rest := rest, await := ins.result } ::
                    below)
                  out
        | _ => StepRes.stuck
      else
        match stepIns fr.locals fr.temps fr.pending ins with
        | (locals, temps, pending) =>
          let fr' : Frame :=
            { fr with locals := locals, temps := temps, pending := pending, rest := rest }
          StepRes.next (fr' :: below) out

/-- Drive the machine for at most `fuel` steps. -/
def drive (P : List MIRFunction) : Nat → List Frame → List Int →
    Option (Int × List Int)
  | 0, _, _ => none
  | fuel + 1, stack, out =>
    match machineStep P stack out with
    | StepRes.done v out => some (v, out)
    | StepRes.next stack out => drive P fuel stack out
    | StepRes.stuck => none

/-- Execute `main` of a list of MIR functions. -/
def execProgram (P : List MIRFunction) (fuel : Nat) : Option (Int × List Int) :=
  match P.find? (fun g2 => g2.name = "main") with
  | none => none
  | some m =>
    match startFrame m [] with
    | none => none
    | some fr => drive P fuel [fr] []

/-- The observable behaviour of a whole program: lower every function
definition (`compile_phase_mir`, compiler.py 143-158), optimize each
(`compile_phase_mir_optimization`, compiler.py 161-176), then execute
`main` with no arguments.  Returns the exit value and the list of
`print`ed values. -/
def runProgram (fds : List FuncDef) (fuel : Nat) : Option (Int × List Int) :=
  execProgram ((lowerProgram fds).map optimizeMir) fuel

/-! ## Concrete programs used by the claims -/

/-- `int fact(int n) { if (n <= 1) return 1; return n * fact(n - 1); }`
as the parser builds it (spec §4.3; end-to-end scenario 5, spec §8). -/
def scenario5Fact : FuncDef :=
  { name := "fact", returnType := "int", params := [("n", "int")], decls := [],
    stmts := [
      Stmt.sif (Expr.binary "<=" (Expr.ref "n") (Expr.constant "1" "int"))
        (Stmt.ret (some (Expr.constant "1" "int"))) none,
      Stmt.ret (some (Expr.binary "*" (Expr.ref "n")
        (Expr.call "fact" [Expr.binary "-" (Expr.ref "n") (Expr.constant "1" "int")]))) ] }

/-- `int main() { print(fact(5)); return 0; }` (scenario 5, spec §8). -/
def scenario5Main : FuncDef :=
  { name := "main", returnType := "int", params := [], decls := [],
    stmts := [
      Stmt.callStmt (Expr.call "print" [Expr.call "fact" [Expr.constant "5" "int"]]),
      Stmt.ret (some (Expr.constant "0" "int")) ] }

/-- `int f() { int i; i = 0; while (i < 1) i = i + 1; }`: a non-void
function whose lowering ends in a while loop's merge block (so the
current block is no longer the entry block when the function ends). -/
def whileAtEnd : FuncDef :=
  { name := "f", returnType := "int", params := [],
    decls := [{ ty := "int", name := "i" }],
    stmts := [
      Stmt.assign "i" (Expr.constant "0" "int"),
      Stmt.swhile (Expr.binary "<" (Expr.ref "i") (Expr.constant "1" "int"))
        (Stmt.assign "i" (Expr.binary "+" (Expr.ref "i") (Expr.constant "1" "int"))) ] }

/-- `int main() { int x = 1; return x; }`: a declaration with an
initializer followed by a load of the declared variable. -/
def declInit : FuncDef :=
  { name := "main", returnType := "int", params := [],
    decls := [{ ty := "int", name := "x", init := some (Expr.constant "1" "int") }],
    stmts := [Stmt.ret (some (Expr.ref "x"))] }

/-- `int g() { int x; x = 1; x = 2; ...; x = 12; return 0; }`: twelve
stores to a variable that is never read. -/
def twelveStores : FuncDef :=
  { name := "g", returnType := "int", params := [],
    decls := [{ ty := "int", name := "x" }],
    stmts := [
      Stmt.assign "x" (Expr.constant "1" "int"),
      Stmt.assign "x" (Expr.constant "2" "int"),
      Stmt.assign "x" (Expr.constant "3" "int"),
      Stmt.assign "x" (Expr.constant "4" "int"),
      Stmt.assign "x" (Expr.constant "5" "int"),
      Stmt.assign "x" (Expr.constant "6" "int"),
      Stmt.assign "x" (Expr.constant "7" "int"),
      Stmt.assign "x" (Expr.constant "8" "int"),
      Stmt.assign "x" (Expr.constant "9" "int"),
      Stmt.assign "x" (Expr.constant "10" "int"),
      Stmt.assign "x" (Expr.constant "11" "int"),
      Stmt.assign "x" (Expr.constant "12" "int"),
      Stmt.ret (some (Expr.constant "0" "int")) ] }

/-- Total number of instructions of a MIR function. -/
def numInstructions (f : MIRFunction) : Nat :=
  f.blocks.foldl (fun n b => n + b.instructions.length) 0

/-- Does the block end in a terminator? -/
def endsWithTerminator (b : BasicBlock) : Bool :=
  match b.instructions.getLast? with
  | some i => isTermOp i.op
  | none => false

/-! ## Claim C1 -/

/-- **C1.** The spec claims the compiled scenario-5 program prints `120`
(and that the MIR for `fact` returns `n * fact(n - 1)` when `n <= 1` is
false).  Evaluating the embedded pipeline refutes this: `visit_if` with
no else branch whose then branch returns emits `branch cond, then, then`
with *both* targets the then block (mir.py 357-358) and leaves
`current_block` pointing at the then block, so the trailing
`return n * fact(n - 1);` is lowered after the then branch's `retval 1`
and is discarded as dead code.  The optimized `fact` is exactly the
two-block function shown below, which returns 1 unconditionally for
every argument, and executing `main` prints 1, not 120. -/
theorem scenario5_fact_returns_one_and_prints_one :
    runProgram [scenario5Fact, scenario5Main] 100 = some (0, [1]) ∧
    (optimizeMir (lowerFunction scenario5Fact)).blocks =
      [{ label := "entry",
         instructions := [
           { op := "load", operands := [Operand.s "n"], result := some "t0" },
           { op := "const", operands := [Operand.s "1"], result := some "t1",
             operandTypes := some ["int"] },
           { op := "le", operands := [Operand.s "t0", Operand.s "t1"], result := some "t2" },
           { op := "branch", operands := [Operand.s "t2", Operand.s "BB0", Operand.s "BB0"] }],
         predecessors := [], successors := ["BB0"] },
       { label := "BB0",
         instructions := [
           { op := "const", operands := [Operand.s "1"], result := some "t3",
             operandTypes := some ["int"] },
           { op := "retval", operands := [Operand.s "t3"] }],
         predecessors := ["entry"], successors := [] }] := by
  exact ⟨by decide, by decide⟩

/-! ## Claim C2: counterexample -/

/-- **C2 (counterexample).** After full MIR optimization of
`int f() { int i; i = 0; while (i < 1) i = i + 1; }`, the while loop's
merge block `BB2` has no terminator at all, and no implicit
`const 0; retval t` was ever emitted anywhere in the function: the
implicit return is added only when lowering finishes with the current
block still equal to the entry block (mir.py 193), which fails here
because lowering ends in the merge block.  This refutes "every basic
block ends with exactly one terminator" as stated. -/
theorem optimized_while_leaves_block_without_terminator :
    ((optimizeMir (lowerFunction whileAtEnd)).blocks.filter
      (fun b => !endsWithTerminator b)).map (fun b => b.label) = ["BB2"] ∧
    ((optimizeMir (lowerFunction whileAtEnd)).blocks.all fun b =>
      b.instructions.all fun i => i.op != "retval" && i.op != "return") = true := by
  exact ⟨by decide, by decide⟩

/-! ## Claim C4 -/

/-- **C4.** Lowering `int main() { int x = 1; return x; }` emits
`store x, t0` and `load x` although `x` is not a parameter and the
function's recorded variable-type mapping is empty: `MIRFunction`
(mir.py 58-66) defines no `var_types` attribute and `visit_declaration`
(mir.py 223-238) records nothing, while the LLVM emitter reads
`func.var_types` for exactly these instructions (llvm.py 251, 262) and
therefore crashes with `AttributeError` on any function containing a
load or store. -/
theorem lowering_records_no_var_types :
    ((lowerFunction declInit).blocks.any fun b =>
      b.instructions.any fun i => storeVar? i == some "x") = true ∧
    ((lowerFunction declInit).blocks.any fun b =>
      b.instructions.any fun i => loadVar? i == some "x") = true ∧
    (lowerFunction declInit).varTypes = [] ∧
    (lowerFunction declInit).parameters = [] := by
  exact ⟨by decide, by decide, by decide, by decide⟩

/-! ## Claim C6 -/

/-- The MIR of `(-7) / 2` in constant position: `t0 = const 7;
t1 = neg t0; t2 = const 2; t3 = div t1, t2`. -/
def divFoldBlock : List Instruction :=
  [{ op := "const", operands := [Operand.s "7"], result := some "t0",
     operandTypes := some ["int"] },
   { op := "neg", operands := [Operand.s "t0"], result := some "t1" },
   { op := "const", operands := [Operand.s "2"], result := some "t2",
     operandTypes := some ["int"] },
   { op := "div", operands := [Operand.s "t1", Operand.s "t2"], result := some "t3" }]

/-- **C6.** Folding the division of the integer constants -7 and 2: the
folder computes Python's floor division `-7 // 2 = -4`
(mir_optimizer.py 270), but the truncating (round-toward-zero) quotient
the claim requires — and which the emitter's `sdiv` produces for the
same division left unfolded (llvm.py 674) — is -3.  (Both operands
being integers, the folded result is itself an integer, as the first
half of the claim states.) -/
theorem folding_uses_floor_division_not_truncation :
    (foldInstrs [] divFoldBlock).2.1 =
      [{ op := "const", operands := [Operand.s "7"], result := some "t0",
         operandTypes := some ["int"] },
       { op := "const", operands := [Operand.i (-7)], result := some "t1" },
       { op := "const", operands := [Operand.s "2"], result := some "t2",
         operandTypes := some ["int"] },
       { op := "const", operands := [Operand.i (-4)], result := some "t3" }] ∧
    Int.tdiv (-7) 2 = -3 := by
  exact ⟨by decide, by decide⟩

/-! ## Claim C8: counterexample -/

/-- **C8 (counterexample).** The optimizer is not idempotent.
Dead-store elimination removes only the *last* dead store to each
variable per iteration (mir_optimizer.py 418-423), so `twelveStores`
needs twelve iterations, but the loop is capped at `max_iterations = 10`
(mir_optimizer.py 38).  The first `optimize_mir` run leaves 16
instructions (two dead stores remain); a second run removes those two
more, leaving 14 — so the second run changes the function. -/
theorem second_optimizer_run_removes_more_instructions :
    numInstructions (optimizeMir (lowerFunction twelveStores)) = 16 ∧
    numInstructions (optimizeMir (optimizeMir (lowerFunction twelveStores))) = 14 := by
  exact ⟨by decide, by decide⟩

/-! ## Claim C3 -/

/-- **C3 (counterexample).** In the default configuration the collector
is in immediate mode, so parsing a source with two syntax-error sites
aborts at the first one with a single collected error — the errors do
not accumulate and the first syntax error does abort the parse. -/
theorem default_mode_aborts_on_first_syntax_error :
    runParse defaultCollector [(), ()] =
      ({ errors := ["E0001"], maxErrors := 50, collectMode := false }, true) := by
  decide

theorem addError_collectMode (c : Collector) (e : String) :
    (addError c e).collectMode = c.collectMode := by
  unfold addError; split <;> rfl

theorem addError_maxErrors (c : Collector) (e : String) :
    (addError c e).maxErrors = c.maxErrors := by
  unfold addError; split <;> rfl

theorem runParse_collect_no_abort (sites : List Unit) :
    ∀ c : Collector, c.collectMode = true → (runParse c sites).2 = false := by
  induction sites with
  | nil => intro c _; rfl
  | cons s rest ih =>
    intro c h
    show (if (reportSyntaxError c).2 then _ else runParse (reportSyntaxError c).1 rest).2 = false
    have h2 : (reportSyntaxError c).2 = false := by
      simp [reportSyntaxError, h]
    rw [h2]
    simp only [if_false, Bool.false_eq_true]
    exact ih _ ((addError_collectMode c "E0001").trans h)

theorem runParse_collect_error_count (sites : List Unit) :
    ∀ c : Collector, c.collectMode = true → c.errors.length ≤ c.maxErrors →
      (runParse c sites).1.errors.length =
        min (c.errors.length + sites.length) c.maxErrors := by
  induction sites with
  | nil =>
    intro c _ hle
    show c.errors.length = min (c.errors.length + 0) c.maxErrors
    omega
  | cons s rest ih =>
    intro c h hle
    show (if (reportSyntaxError c).2 then _
          else runParse (reportSyntaxError c).1 rest).1.errors.length = _
    have h2 : (reportSyntaxError c).2 = false := by
      simp [reportSyntaxError, h]
    rw [h2]
    simp only [if_false, Bool.false_eq_true]
    show (runParse (addError c "E0001") rest).1.errors.length = _
    by_cases hcap : c.maxErrors ≤ c.errors.length
    · have heq : addError c "E0001" = c := by
        unfold addError; simp [hcap]
      rw [heq, ih c h hle]
      simp only [List.length_cons]
      omega
    · have hlen : (addError c "E0001").errors.length = c.errors.length + 1 := by
        unfold addError
        simp [hcap]
      rw [ih _ ((addError_collectMode c "E0001").trans h)
            (by rw [hlen, addError_maxErrors]; omega)]
      rw [hlen, addError_maxErrors]
      simp only [List.length_cons]
      omega

/-- **C3 (amended).** The behaviour the code implements: (1)-(2) with
collect mode enabled, a parse never aborts on syntax errors and
accumulates one `E0001` per error site up to the `max_errors` cap of 50;
(3)-(4) in the default (immediate-mode) configuration, any nonempty
sequence of error sites aborts the parse at the first site with exactly
one error collected; (5) `p_error`'s recovery consumes tokens up to and
including the next `;` or `{`. -/
theorem parser_error_accumulation_by_mode :
    (∀ sites : List Unit, (runParse collectingCollector sites).2 = false) ∧
    (∀ sites : List Unit,
      (runParse collectingCollector sites).1.errors.length = min sites.length 50) ∧
    (∀ sites : List Unit, (runParse defaultCollector sites).2 = !sites.isEmpty) ∧
    (∀ sites : List Unit,
      (runParse defaultCollector sites).1.errors.length = min sites.length 1) ∧
    (∀ (n : Nat) (post : List TokKind),
      panicSkip (List.replicate n TokKind.other ++ TokKind.semicolon :: post) = post ∧
      panicSkip (List.replicate n TokKind.other ++ TokKind.lbrace :: post) = post) := by
  refine ⟨fun sites => runParse_collect_no_abort sites _ rfl, fun sites => ?_,
    fun sites => ?_, fun sites => ?_, fun n post => ?_⟩
  · have := runParse_collect_error_count sites collectingCollector rfl (by simp [collectingCollector, defaultCollector])
    simpa [collectingCollector, defaultCollector] using this
  · cases sites with
    | nil => rfl
    | cons s rest => rfl
  · cases sites with
    | nil => rfl
    | cons s rest =>
      have h : (runParse defaultCollector (s :: rest)).1.errors.length = 1 := rfl
      rw [h]
      simp only [List.length_cons]
      omega
  · induction n with
    | zero => exact ⟨rfl, rfl⟩
    | succ k ih =>
      constructor
      · show panicSkip (TokKind.other :: (List.replicate k TokKind.other ++ _)) = post
        rw [show panicSkip (TokKind.other :: (List.replicate k TokKind.other ++ TokKind.semicolon :: post)) = panicSkip (List.replicate k TokKind.other ++ TokKind.semicolon :: post) from by simp [panicSkip]]
        exact ih.1
      · show panicSkip (TokKind.other :: (List.replicate k TokKind.other ++ _)) = post
        rw [show panicSkip (TokKind.other :: (List.replicate k TokKind.other ++ TokKind.lbrace :: post)) = panicSkip (List.replicate k TokKind.other ++ TokKind.lbrace :: post) from by simp [panicSkip]]
        exact ih.2

/-! ## Claim C5 -/

/-- **C5 (counterexample).** A call resolving to a user function
declared with two `int` parameters but applied to zero arguments passes
the type checker without any error: the `FunctionCall` branch of
`SemanticsVisitor.visit` never inspects the argument list, so the
claimed `E0004` rejection of mismatched argument counts/types does not
happen. -/
theorem checker_accepts_wrong_arity_call :
    semCheckFunctionCall (some (Attributes.function "f" "int" ["int", "int"])) [] = [] :=
  rfl

/-- **C5 (amended).** What the checker actually does: whenever the
callee resolved to a `FunctionAttributes` record, the call is accepted
with no error, whatever the number and types of its arguments — for
user-defined functions exactly as for the built-in `print`.  (`E0004`
is emitted only when the callee did not resolve or resolved to a
variable.) -/
theorem checker_ignores_call_arguments (name rt : String) (ps : List String)
    (args : List (Option String)) :
    semCheckFunctionCall (some (Attributes.function name rt ps)) args = [] :=
  rfl

/-! ## Claim C7 -/

/-- **C7.** The folder never folds a `div` or `mod` whose divisor
resolves to the constant 0: the instruction is passed through unchanged,
the constants map is untouched, and no change is reported — so the
instruction survives `_constant_folding` into emission.  (In the Python
source the guard makes the `except ZeroDivisionError` handler
unreachable for these operations; the embedding is total and has no
exception branch at all.) -/
theorem div_mod_by_zero_never_folded (c : Constants) (ins : Instruction)
    (l r : Operand) (rest : List Operand)
    (hop : ins.op = "div" ∨ ins.op = "mod")
    (hops : ins.operands = l :: r :: rest)
    (hzero : resolveNum c r = some 0) :
    foldOne c ins = (c, ins, false) := by
  rcases hop with h | h <;>
    · unfold foldOne
      rw [h, hops]
      simp only [hzero]
      cases hres : resolveNum c l <;> simp

/-- Witness for `div_mod_by_zero_never_folded`: the division `t2 = div
t0, t1` with `t1` bound to the constant 0 is left intact. -/
theorem div_mod_by_zero_never_folded_witness :
    (("div" : String) = "div" ∨ ("div" : String) = "mod") ∧
    resolveNum [("t1", Operand.i 0)] (Operand.s "t1") = some 0 ∧
    foldOne [("t1", Operand.i 0)]
      { op := "div", operands := [Operand.s "t0", Operand.s "t1"], result := some "t2" } =
      ([("t1", Operand.i 0)],
       { op := "div", operands := [Operand.s "t0", Operand.s "t1"], result := some "t2" },
       false) :=
  ⟨Or.inl rfl, by decide,
   div_mod_by_zero_never_folded [("t1", Operand.i 0)]
     { op := "div", operands := [Operand.s "t0", Operand.s "t1"], result := some "t2" }
     (Operand.s "t0") (Operand.s "t1") [] (Or.inl rfl) rfl (by decide)⟩

/-! ## Claim C10 -/

theorem failed_prefix_ne_success (s : String) :
    "compilation failed with " ++ s ≠ "compilation successful" := by
  intro h
  have hl := congrArg String.length h
  rw [String.length_append] at hl
  have h1 : ("compilation failed with " : String).length = 24 := rfl
  have h2 : ("compilation successful" : String).length = 22 := rfl
  rw [h1, h2] at hl
  omega

/-- **C10.** `get_summary` answers "compilation successful" exactly when
the collector holds no errors and no warnings, and with zero errors but
`M > 0` warnings it reports "compilation failed with M warning(s)" —
warnings alone make the summary report failure. -/
theorem summary_successful_iff_no_errors_and_no_warnings (ec wc : Nat) :
    ((getSummary ec wc == "compilation successful") = (ec == 0 && wc == 0)) ∧
    getSummary 0 (wc + 1) =
      "compilation failed with " ++ toString (wc + 1) ++ " warning(s)" := by
  constructor
  · match ec, wc with
    | 0, 0 => rfl
    | 0, w + 1 =>
      have h : getSummary 0 (w + 1) =
          "compilation failed with " ++ (toString (w + 1) ++ " warning(s)") := by
        simp [getSummary, joinComma]
      rw [h, show ((0 : Nat) == 0 && (w + 1 : Nat) == 0) = false from rfl]
      exact beq_eq_false_iff_ne.mpr (failed_prefix_ne_success _)
    | e + 1, w =>
      have h : ∃ s, getSummary (e + 1) w = "compilation failed with " ++ s := by
        cases w with
        | zero =>
          exact ⟨toString (e + 1) ++ " error(s)", by simp [getSummary, joinComma]⟩
        | succ w2 =>
          exact ⟨toString (e + 1) ++ " error(s)" ++ ", " ++
            (toString (w2 + 1) ++ " warning(s)"), by simp [getSummary, joinComma]⟩
      obtain ⟨s, hs⟩ := h
      rw [hs, show ((e + 1 : Nat) == 0 && (w : Nat) == 0) = false from rfl]
      exact beq_eq_false_iff_ne.mpr (failed_prefix_ne_success _)
  · have h : getSummary 0 (wc + 1) =
        "compilation failed with " ++ (toString (wc + 1) ++ " warning(s)") := by
      simp [getSummary, joinComma]
    rw [h, ← String.append_assoc]

/-! ## Claim C2: amended general theorem

What does hold of the optimizer: no instruction of any output block
strictly precedes a terminator of the same block — every block "ends
with at most one terminator", everything after the first terminator
having been removed.  (The counterexample above shows "exactly one"
fails: a block can end with no terminator at all.) -/

/-- No instruction strictly before the last one is a terminator. -/
def noMidTerm : List Instruction → Bool
  | [] => true
  | [_] => true
  | x :: y :: rest => !isTermOp x.op && noMidTerm (y :: rest)

theorem noMidTerm_tail {x : Instruction} {l : List Instruction}
    (h : noMidTerm (x :: l) = true) : noMidTerm l = true := by
  cases l with
  | nil => rfl
  | cons y rest =>
    simp only [noMidTerm, Bool.and_eq_true] at h
    exact h.2

theorem noMidTerm_cons {x : Instruction} {l : List Instruction}
    (h1 : isTermOp x.op = false) (h2 : noMidTerm l = true) :
    noMidTerm (x :: l) = true := by
  cases l with
  | nil => rfl
  | cons y rest =>
    simp only [noMidTerm, Bool.and_eq_true]
    exact ⟨by simp [h1], h2⟩

theorem noMidTerm_head {x : Instruction} {y : Instruction} {l : List Instruction}
    (h : noMidTerm (x :: y :: l) = true) : isTermOp x.op = false := by
  simp only [noMidTerm, Bool.and_eq_true] at h
  simpa using h.1

/-- `_remove_dead_instructions`' truncation establishes the property. -/
theorem noMidTerm_takeThroughTerm (l : List Instruction) :
    noMidTerm (takeThroughTerm l) = true := by
  induction l with
  | nil => rfl
  | cons x xs ih =>
    unfold takeThroughTerm
    by_cases h : isTermOp x.op = true
    · simp [h, noMidTerm]
    · have hx : isTermOp x.op = false := by
        cases hb : isTermOp x.op
        · rfl
        · exact absurd hb h
      simp only [hx, Bool.false_eq_true, if_false]
      exact noMidTerm_cons hx ih

/-- Removing elements keeps the property: a sublist of a truncated
instruction list is truncated. -/
theorem noMidTerm_sublist {l' l : List Instruction}
    (hs : List.Sublist l' l) (h : noMidTerm l = true) : noMidTerm l' = true := by
  induction hs with
  | slnil => rfl
  | cons a hs ih => exact ih (noMidTerm_tail h)
  | cons₂ a hs ih =>
    rename_i t' t
    cases t' with
    | nil => rfl
    | cons b rest =>
      have ht : t ≠ [] := by
        intro he
        subst he
        cases hs
      obtain ⟨c, crest, hc⟩ : ∃ c crest, t = c :: crest := by
        cases t with
        | nil => exact absurd rfl ht
        | cons c crest => exact ⟨c, crest, rfl⟩
      subst hc
      exact noMidTerm_cons (noMidTerm_head h) (ih (noMidTerm_tail h))

/-- `foldOne` never turns a non-terminator into a terminator (its
replacement, when it folds, is a `const`). -/
theorem foldOne_nonterm (c : Constants) (i : Instruction)
    (h : isTermOp i.op = false) : isTermOp (foldOne c i).2.1.op = false := by
  unfold foldOne
  repeat' split
  all_goals first | exact h | rfl

/-- `foldInstrs` rewrites instructions one for one. -/
theorem foldInstrs_length (c : Constants) (l : List Instruction) :
    (foldInstrs c l).2.1.length = l.length := by
  induction l generalizing c with
  | nil => rfl
  | cons x xs ih =>
    simp only [foldInstrs]
    simpa using ih (foldOne c x).1

/-- Constant folding preserves the property. -/
theorem noMidTerm_foldInstrs (c : Constants) (l : List Instruction)
    (h : noMidTerm l = true) : noMidTerm (foldInstrs c l).2.1 = true := by
  induction l generalizing c with
  | nil => rfl
  | cons x xs ih =>
    simp only [foldInstrs]
    cases xs with
    | nil =>
      have hlen : (foldInstrs (foldOne c x).1 ([] : List Instruction)).2.1 = [] := rfl
      simp [hlen, noMidTerm]
    | cons y rest =>
      have hx : isTermOp x.op = false := noMidTerm_head h
      have htail := noMidTerm_tail h
      have hys := ih (foldOne c x).1 htail
      have hne : (foldInstrs (foldOne c x).1 (y :: rest)).2.1 ≠ [] := by
        intro he
        have := foldInstrs_length (foldOne c x).1 (y :: rest)
        rw [he] at this
        simp at this
      exact noMidTerm_cons (foldOne_nonterm c x hx) hys

/-- A map that does not create terminators preserves the property. -/
theorem noMidTerm_map (g : Instruction → Instruction)
    (hg : ∀ i, isTermOp (g i).op = isTermOp i.op) (l : List Instruction)
    (h : noMidTerm l = true) : noMidTerm (l.map g) = true := by
  induction l with
  | nil => rfl
  | cons x xs ih =>
    cases xs with
    | nil => rfl
    | cons y rest =>
      have hx : isTermOp (g x).op = false := by
        rw [hg]; exact noMidTerm_head h
      exact noMidTerm_cons hx (ih (noMidTerm_tail h))

/-- Redirection only rewrites operands, never the opcode. -/
theorem redirectIns_op (a b : String) (i : Instruction) :
    (redirectIns a b i).op = i.op := by
  unfold redirectIns
  repeat' split
  all_goals rfl

/-- Dead-store elimination only removes instructions. -/
theorem dseBlock_sublist (l : List Instruction) : List.Sublist (dseBlock l) l := by
  unfold dseBlock
  have h1 := List.filter_sublist (p := fun p =>
    match storeVar? p.2 with
    | some v =>
      if (l.filterMap loadVar?).contains v then true
      else !(lastStoreIdx l v == some p.1)
    | none => true) l.enum
  have h2 := h1.map Prod.snd
  rw [List.enum_map_snd] at h2
  exact h2

/-- The per-function property: every block's instruction list is
truncated. -/
def blocksTruncated (f : MIRFunction) : Bool :=
  f.blocks.all fun b => noMidTerm b.instructions

theorem removeDead_truncated (f : MIRFunction) :
    blocksTruncated (removeDeadInstructions f).1 = true := by
  unfold blocksTruncated removeDeadInstructions
  rw [List.all_eq_true]
  intro b hb
  simp only [List.mem_map] at hb
  obtain ⟨a, _, ha⟩ := hb
  rw [← ha]
  exact noMidTerm_takeThroughTerm a.instructions

theorem buildCfg_truncated (f : MIRFunction)
    (h : blocksTruncated f = true) : blocksTruncated (buildCfg f) = true := by
  unfold blocksTruncated at h ⊢
  rw [List.all_eq_true] at h ⊢
  intro b hb
  unfold buildCfg at hb
  simp only [List.mem_map] at hb
  obtain ⟨a, ⟨a0, ha0, ha⟩, hb⟩ := hb
  rw [← hb, ← ha]
  exact h a0 ha0

theorem removeUnreachable_truncated (f : MIRFunction)
    (h : blocksTruncated f = true) :
    blocksTruncated (removeUnreachableBlocks f).1 = true := by
  unfold blocksTruncated at h ⊢
  rw [List.all_eq_true] at h
  unfold removeUnreachableBlocks
  cases hb : f.blocks with
  | nil =>
    rw [List.all_eq_true]
    exact h
  | cons first rest =>
    rw [List.all_eq_true]
    intro b hmem
    simp only at hmem
    have hmem2 : b ∈ first :: rest := (List.mem_filter.mp hmem).1
    exact h b (by rw [hb]; exact hmem2)

theorem foldBlocks_truncated (c : Constants) (bs : List BasicBlock)
    (h : ∀ b ∈ bs, noMidTerm b.instructions = true) :
    ∀ b ∈ (foldBlocks c bs).1, noMidTerm b.instructions = true := by
  induction bs generalizing c with
  | nil => intro b hb; cases hb
  | cons a rest ih =>
    intro b hb
    simp only [foldBlocks] at hb
    rcases List.mem_cons.mp hb with hb | hb
    · subst hb
      exact noMidTerm_foldInstrs c a.instructions (h a (List.mem_cons_self a rest))
    · exact ih (foldInstrs c a.instructions).1 (fun x hx => h x (List.mem_cons_of_mem a hx)) b hb

theorem constantFolding_truncated (f : MIRFunction)
    (h : blocksTruncated f = true) :
    blocksTruncated (constantFolding f).1 = true := by
  unfold blocksTruncated at h ⊢
  rw [List.all_eq_true] at h ⊢
  unfold constantFolding
  exact foldBlocks_truncated [] f.blocks h

theorem deadStoreElim_truncated (f : MIRFunction)
    (h : blocksTruncated f = true) :
    blocksTruncated (deadStoreElim f).1 = true := by
  unfold blocksTruncated at h ⊢
  rw [List.all_eq_true] at h ⊢
  intro b hb
  unfold deadStoreElim at hb
  simp only [List.mem_map] at hb
  obtain ⟨a, ha, hba⟩ := hb
  rw [← hba]
  exact noMidTerm_sublist (dseBlock_sublist a.instructions) (h a ha)

theorem processEmpty_truncated (bs : List BasicBlock) (l : String)
    (h : ∀ b ∈ bs, noMidTerm b.instructions = true) :
    ∀ b ∈ (processEmpty bs l).1, noMidTerm b.instructions = true := by
  intro b
  have key : ∀ (blk : BasicBlock) (target : String),
      b ∈ ((bs.map fun b2 =>
        if blk.predecessors.contains b2.label then
          { b2 with instructions := b2.instructions.map (redirectIns l target) }
        else b2).filter fun b2 => b2.label ≠ l) →
      noMidTerm b.instructions = true := by
    intro blk target hmem
    have hb2 := (List.mem_filter.mp hmem).1
    simp only [List.mem_map] at hb2
    obtain ⟨a, ha, hba⟩ := hb2
    rw [← hba]
    split
    · exact noMidTerm_map _ (fun i => by rw [redirectIns_op]) a.instructions (h a ha)
    · exact h a ha
  intro hb
  unfold processEmpty at hb
  split at hb
  · exact h b hb
  next blk hfind =>
    rcases hh : blk.instructions.head? with _ | ins <;> simp only [hh] at hb
    · rcases hs : blk.successors.head? with _ | target <;> simp only [hs] at hb
      · exact h b hb
      · exact key blk target hb
    · rcases ho : ins.operands.head? with _ | o <;> simp only [ho] at hb
      · exact h b hb
      · rcases o with lbl2 | n <;> simp only at hb
        · exact key blk lbl2 hb
        · exact h b hb

theorem removeEmptyBlocks_truncated (f : MIRFunction)
    (h : blocksTruncated f = true) :
    blocksTruncated (removeEmptyBlocks f).1 = true := by
  unfold blocksTruncated at h ⊢
  rw [List.all_eq_true] at h ⊢
  unfold removeEmptyBlocks
  cases hl : (f.blocks.filter fun b => b.label ≠ "entry" && emptyish b).map (fun b => b.label) with
  | nil => simpa using h
  | cons x xs =>
    simp only
    have main : ∀ (ls : List String) (bs : List BasicBlock) (acc : Bool),
        (∀ b ∈ bs, noMidTerm b.instructions = true) →
        ∀ b ∈ (ls.foldl (fun (acc2 : List BasicBlock × Bool) l2 =>
            ((processEmpty acc2.1 l2).1, acc2.2 || (processEmpty acc2.1 l2).2)) (bs, acc)).1,
          noMidTerm b.instructions = true := by
      intro ls
      induction ls with
      | nil => intro bs acc hbs b hb; exact hbs b hb
      | cons l2 ls2 ih =>
        intro bs acc hbs b hb
        exact ih _ _ (processEmpty_truncated bs l2 hbs) b hb
    exact main (x :: xs) f.blocks false h

/-- The conditional CFG rebuild after a block-removing pass preserves
the property. -/
theorem condRebuild_truncated (r : MIRFunction × Bool)
    (h : blocksTruncated r.1 = true) :
    blocksTruncated (if r.2 then buildCfg r.1 else r.1) = true := by
  split
  · exact buildCfg_truncated _ h
  · exact h

theorem sweep_truncated (f : MIRFunction) :
    blocksTruncated (sweep f).1 = true :=
  condRebuild_truncated _
    (removeEmptyBlocks_truncated _
      (deadStoreElim_truncated _
        (constantFolding_truncated _
          (condRebuild_truncated _
            (removeUnreachable_truncated _ (removeDead_truncated f))))))

theorem optLoop_succ_truncated : ∀ (n : Nat) (f : MIRFunction),
    blocksTruncated (optLoop (n + 1) f) = true := by
  intro n
  induction n with
  | zero =>
    intro f
    simp only [optLoop]
    split
    · exact sweep_truncated f
    · exact sweep_truncated f
  | succ k ih =>
    intro f
    simp only [optLoop]
    split
    · exact ih (sweep f).1
    · exact sweep_truncated f

/-- **C2 (amended).** After MIR optimization every basic block ends with
*at most* one terminator: no instruction strictly before the end of a
block is a `jump`, `branch`, `return` or `retval` (everything after the
first terminator is removed by `_remove_dead_instructions`, and the
other passes never reintroduce such an instruction).  Together with the
counterexample above this replaces the claimed "exactly one terminator,
with an implicit `const 0; retval` for non-void functions": the implicit
return is emitted only when lowering is still in the entry block, and a
block may end with no terminator at all. -/
theorem optimizer_output_blocks_truncated (f : MIRFunction) :
    ((optimizeMir f).blocks.all fun b => noMidTerm b.instructions) = true :=
  optLoop_succ_truncated 9 (buildCfg f)

/-! ## Claim C8: amended general theorem -/

/-- **C8 (amended).** The optimizer is not idempotent in general, but a
sweep fixed point is stable: once the five-pass sweep reports no change
— which is how the `while changed` loop exits before the 10-iteration
cap — any further optimization leaves the function untouched.  The
counterexample above shows the cap can instead be exhausted while
changes remain (dead-store elimination removes only the last dead store
per variable per sweep), and then a second `optimize_mir` run still
removes instructions. -/
theorem optLoop_fixed_of_sweep_fixed (f : MIRFunction)
    (h : sweep f = (f, false)) : ∀ n : Nat, optLoop n f = f := by
  intro n
  cases n with
  | zero => rfl
  | succ k =>
    show (if (sweep f).2 then optLoop k (sweep f).1 else (sweep f).1) = f
    rw [h]
    rfl

/-- A function that is a sweep fixed point: already-optimized code with
a built CFG. -/
def sweepFixed : MIRFunction :=
  buildCfg
    { name := "h", returnType := "int", parameters := [], parameterTypes := [],
      blocks := [{ label := "entry", instructions := [
        { op := "const", operands := [Operand.i 0], result := some "t0" },
        { op := "retval", operands := [Operand.s "t0"] }] }] }

/-- Witness for `optLoop_fixed_of_sweep_fixed`. -/
theorem optLoop_fixed_of_sweep_fixed_witness :
    sweep sweepFixed = (sweepFixed, false) ∧ optLoop 10 sweepFixed = sweepFixed :=
  ⟨by decide, optLoop_fixed_of_sweep_fixed sweepFixed (by decide) 10⟩

/-! ## Claim C9: the AST DAG-sharing optimizer
(`sarac/optimization/optimizer.py`)

`BuildDAGVisitor.visit` mutates expression nodes in place
(`node.children[i] = self.dag_table[child_key]`, optimizer.py 88),
re-parenting child slots onto previously interned nodes.  To make that
mutation and the resulting sharing observable, the expression ASTs are
embedded as an arena: nodes live in a list, a child slot holds the arena
index of the child, and node identity is the arena index.
`OptimizerVisitor.visit` (optimizer.py 4-16) starts a fresh
`BuildDAGVisitor` — a fresh empty `dag_table` — for each maximal
statement-level expression; here the maximal expressions are given as a
list of root indices. -/

/-- The expression-node kinds `_canonical_key` distinguishes
(optimizer.py 40-67): `Constant`, `Reference`, `UnaryOperator`,
`BinaryOperator`, `FunctionCall`. -/
inductive AKind where
  | aconst (ty value : String)
  | aref (name : String)
  | aunary (op : String)
  | abinary (op : String)
  | acall (name : String)
deriving DecidableEq

/-- An arena node: its kind plus the arena indices of its children. -/
structure ANode where
  kind : AKind
  children : List Nat
deriving DecidableEq

abbrev Arena := List ANode

/-- Canonical keys (`_canonical_key`, optimizer.py 35-71): nested Python
tuples, modelled as a tree.  An `Option Key` child stands for the `None`
produced by the `if node.children`-style guards; `kdiverge` marks fuel
exhaustion or a dangling index (neither arises for the well-founded
arenas the optimizer is run on at the fuel used below). -/
inductive Key where
  | kconst (ty value : String)
  | kref (name : String)
  | kunary (op : String) (child : Option Key)
  | kbinary (op : String) (left right : Option Key)
  | kcall (name : String) (args : List Key)
  | kdiverge (i : Nat)

mutual

/-- Structural equality of keys, standing in for Python tuple equality
(the `child_key in self.dag_table` dict test). -/
def keyBEq : Key → Key → Bool
  | Key.kconst t1 v1, Key.kconst t2 v2 => t1 == t2 && v1 == v2
  | Key.kref n1, Key.kref n2 => n1 == n2
  | Key.kunary o1 c1, Key.kunary o2 c2 => o1 == o2 && optKeyBEq c1 c2
  | Key.kbinary o1 l1 r1, Key.kbinary o2 l2 r2 =>
      o1 == o2 && optKeyBEq l1 l2 && optKeyBEq r1 r2
  | Key.kcall n1 a1, Key.kcall n2 a2 => n1 == n2 && keyListBEq a1 a2
  | Key.kdiverge i, Key.kdiverge j => i == j
  | _, _ => false
termination_by structural k => k

def optKeyBEq : Option Key → Option Key → Bool
  | none, none => true
  | some k1, some k2 => keyBEq k1 k2
  | _, _ => false
termination_by structural k => k

def keyListBEq : List Key → List Key → Bool
  | [], [] => true
  | k1 :: t1, k2 :: t2 => keyBEq k1 k2 && keyListBEq t1 t2
  | _, _ => false
termination_by structural k => k

end

/-- `dag_table`: the Python dict from canonical keys to nodes (arena
indices).  The source only ever inserts keys that are absent, so the
association list never holds duplicate keys. -/
abbrev DagTable := List (Key × Nat)

def tableLookup (t : DagTable) (k : Key) : Option Nat :=
  (t.find? fun p => keyBEq p.1 k).map fun p => p.2

def tableInsert (t : DagTable) (k : Key) (v : Nat) : DagTable := (k, v) :: t

/-- `_canonical_key` over the arena (optimizer.py 35-71).  The unary key
takes `children[0]` when the child list is non-empty, the binary key
guards each side by the list length, and the call key collects all
argument keys.  The fuel bounds recursion depth, which Python leaves
unbounded; for an acyclic arena any fuel at least the arena length is
enough, and every use below passes the arena length. -/
def keyOf (a : Arena) : Nat → Nat → Key
  | 0, i => Key.kdiverge i
  | fuel + 1, i =>
    match a[i]? with
    | none => Key.kdiverge i
    | some node =>
      match node.kind with
      | AKind.aconst ty v => Key.kconst ty v
      | AKind.aref n => Key.kref n
      | AKind.aunary op => Key.kunary op (node.children.head?.map (keyOf a fuel))
      | AKind.abinary op =>
          Key.kbinary op (node.children[0]?.map (keyOf a fuel))
            (node.children[1]?.map (keyOf a fuel))
      | AKind.acall n => Key.kcall n (node.children.map (keyOf a fuel))
termination_by structural fuel => fuel

/-- `node.children[i] = d` (optimizer.py 88): overwrite one child slot
of node `i`; the rest of the arena is untouched. -/
def setChild (a : Arena) (i slot d : Nat) : Arena :=
  match a[i]? with
  | none => a
  | some node => a.set i { node with children := node.children.set slot d }

/-- Lines 85-91 of optimizer.py: after visiting the child `c` sitting in
slot `slot` of node `i`, rekey it; a hit re-parents the slot onto the
interned node, a miss interns `c`. -/
def rewriteSlot (st : Arena × DagTable) (i slot c : Nat) : Arena × DagTable :=
  match tableLookup st.2 (keyOf st.1 st.1.length c) with
  | some d => (setChild st.1 i slot d, st.2)
  | none => (st.1, tableInsert st.2 (keyOf st.1 st.1.length c) c)

/-- Lines 93-104 of optimizer.py: after the child loop the node itself
is interned if its key is new; on a hit the body is `pass`. -/
def internSelf (st : Arena × DagTable) (i : Nat) : Arena × DagTable :=
  match tableLookup st.2 (keyOf st.1 st.1.length i) with
  | some _ => st
  | none => (st.1, tableInsert st.2 (keyOf st.1 st.1.length i) i)

mutual

/-- `BuildDAGVisitor.visit` (optimizer.py 73-104) on node `i`: rewrite
the child slots left to right, then intern the node itself.  The fuel
models the recursion depth Python leaves unbounded. -/
def visitNode : Nat → Arena × DagTable → Nat → Arena × DagTable
  | 0, st, _ => st
  | fuel + 1, st, i =>
    match st.1[i]? with
    | none => st
    | some node => internSelf (visitSlots fuel st i 0 node.children.length) i
termination_by fuel _ _ => (fuel, 0, 0)

/-- The `for i, child in enumerate(node.children)` loop (optimizer.py
80-91): each iteration re-reads the current occupant of the slot — the
list may have been mutated — visits it, then rewrites the slot. -/
def visitSlots : Nat → Arena × DagTable → Nat → Nat → Nat → Arena × DagTable
  | _, st, _, _, 0 => st
  | fuel, st, i, slot, rem + 1 =>
    match (st.1[i]?).bind (fun node => node.children[slot]?) with
    | none => st
    | some c =>
        visitSlots fuel (rewriteSlot (visitNode fuel st c) i slot c) i
          (slot + 1) rem
termination_by fuel _ _ _ rem => (fuel, 1, rem)

end

/-- `OptimizerVisitor.visit` (optimizer.py 4-16) over the maximal
statement-level expression roots: each root is handed to a freshly
constructed `BuildDAGVisitor`, i.e. an empty table.  The fuel
`acc.length` covers the recursion depth of any well-founded arena. -/
def optimizeRoots (a : Arena) (roots : List Nat) : Arena :=
  roots.foldl (fun acc r => (visitNode acc.length (acc, []) r).1) a

/-- `n` is reachable from root `r` by following child slots: the
node-sharing relation the claim is about. -/
inductive Reach (a : Arena) (r : Nat) : Nat → Prop where
  | refl : Reach a r r
  | step {n c : Nat} {node : ANode} : Reach a r n → a[n]? = some node →
      c ∈ node.children → Reach a r c

/-- One expansion step of the executable reachability closure: every
member plus all of its children. -/
def expandOnce (a : Arena) (s : List Nat) : List Nat :=
  s ++ s.flatMap fun n =>
    match a[n]? with
    | none => []
    | some node => node.children

def iterExpand (a : Arena) : Nat → List Nat → List Nat
  | 0, s => s
  | k + 1, s => expandOnce a (iterExpand a k s)

/-- Executable reach list from root `r`: for a well-founded arena,
`r + 1` expansions cover every child-slot path. -/
def reachL (a : Arena) (r : Nat) : List Nat := iterExpand a (r + 1) [r]

def wfFrom : Nat → List ANode → Bool
  | _, [] => true
  | i, node :: rest =>
      node.children.all (fun c => decide (c < i)) && wfFrom (i + 1) rest

/-- Well-founded arena: every child index sits strictly below its
parent, as in any arena built bottom-up the way the parser builds
ASTs. -/
def wfArena (a : Arena) : Bool := wfFrom 0 a

theorem wfFrom_child_lt {k : Nat} {l : List ANode} (h : wfFrom k l = true)
    {j : Nat} {node : ANode} (hj : l[j]? = some node) {c : Nat}
    (hc : c ∈ node.children) : c < k + j := by
  induction l generalizing k j with
  | nil => simp at hj
  | cons hd tl ih =>
    simp only [wfFrom, Bool.and_eq_true] at h
    cases j with
    | zero =>
      simp only [List.getElem?_cons_zero, Option.some.injEq] at hj
      subst hj
      have := List.all_eq_true.mp h.1 c hc
      simpa using this
    | succ j =>
      simp only [List.getElem?_cons_succ] at hj
      have := ih h.2 hj
      omega

theorem wf_child_lt {a : Arena} (h : wfArena a = true) {n : Nat}
    {node : ANode} (hn : a[n]? = some node) {c : Nat}
    (hc : c ∈ node.children) : c < n := by
  have := wfFrom_child_lt h hn hc
  simpa using this

theorem subset_expandOnce (a : Arena) (s : List Nat) : s ⊆ expandOnce a s :=
  List.subset_append_left _ _

theorem expandOnce_mono {a : Arena} {s t : List Nat} (h : s ⊆ t) :
    expandOnce a s ⊆ expandOnce a t := by
  intro x hx
  rcases List.mem_append.mp hx with hx | hx
  · exact List.mem_append_left _ (h hx)
  · rcases List.mem_flatMap.mp hx with ⟨n, hn, hxn⟩
    exact List.mem_append_right _ (List.mem_flatMap.mpr ⟨n, h hn, hxn⟩)

theorem mem_expandOnce_of_child {a : Arena} {s : List Nat} {n c : Nat}
    {node : ANode} (hn : n ∈ s) (hnode : a[n]? = some node)
    (hc : c ∈ node.children) : c ∈ expandOnce a s := by
  refine List.mem_append_right _ (List.mem_flatMap.mpr ⟨n, hn, ?_⟩)
  rw [hnode]
  exact hc

theorem iterExpand_le {a : Arena} {s : List Nat} :
    ∀ {k m : Nat}, k ≤ m → iterExpand a k s ⊆ iterExpand a m s := by
  intro k m hkm
  induction m with
  | zero =>
    cases Nat.le_zero.mp hkm
    exact fun x hx => hx
  | succ m ih =>
    rcases Nat.lt_or_ge k (m + 1) with hlt | hge
    · exact fun x hx => subset_expandOnce _ _ (ih (Nat.lt_succ_iff.mp hlt) hx)
    · have heq : k = m + 1 := Nat.le_antisymm hkm hge
      subst heq
      exact fun x hx => hx

theorem reach_le_and_mem {a : Arena} (hwf : wfArena a = true) {r n : Nat}
    (h : Reach a r n) : n ≤ r ∧ n ∈ iterExpand a (r - n) [r] := by
  induction h with
  | refl => exact ⟨Nat.le_refl r, by simp [iterExpand]⟩
  | step hreach hget hcmem ih =>
    rename_i n c node
    have hcn : c < n := wf_child_lt hwf hget hcmem
    refine ⟨by omega, ?_⟩
    have h1 : c ∈ iterExpand a (r - n + 1) [r] :=
      mem_expandOnce_of_child ih.2 hget hcmem
    have hle : r - n + 1 ≤ r - c := by omega
    exact iterExpand_le hle h1

theorem mem_reachL_of_reach {a : Arena} (hwf : wfArena a = true) {r n : Nat}
    (h : Reach a r n) : n ∈ reachL a r := by
  have hh := reach_le_and_mem hwf h
  exact iterExpand_le (by omega) hh.2

theorem setChild_getElem_ne (a : Arena) (i slot d : Nat) {m : Nat}
    (h : i ≠ m) : (setChild a i slot d)[m]? = a[m]? := by
  unfold setChild
  cases hget : a[i]? with
  | none => rfl
  | some node => exact List.getElem?_set_ne h

theorem setChild_children_sub {a : Arena} {i slot d m : Nat} {node' : ANode}
    (h : (setChild a i slot d)[m]? = some node') :
    ∃ node, a[m]? = some node ∧
      ∀ c ∈ node'.children, c ∈ node.children ∨ c = d := by
  unfold setChild at h
  cases hget : a[i]? with
  | none =>
    rw [hget] at h
    exact ⟨node', h, fun c hc => Or.inl hc⟩
  | some nodei =>
    rw [hget] at h
    by_cases hmi : i = m
    · subst hmi
      have hlt : i < a.length := (List.getElem?_eq_some.mp hget).1
      rw [List.getElem?_set_eq_of_lt _ hlt] at h
      have hnode : node' = { nodei with children := nodei.children.set slot d } :=
        (Option.some.injEq _ _ ▸ h).symm
      subst hnode
      exact ⟨nodei, hget, fun c hc => List.mem_or_eq_of_mem_set hc⟩
    · rw [List.getElem?_set_ne hmi] at h
      exact ⟨node', h, fun c hc => Or.inl hc⟩

theorem tableLookup_mem {t : DagTable} {k : Key} {d : Nat}
    (h : tableLookup t k = some d) : ∃ p ∈ t, p.2 = d := by
  unfold tableLookup at h
  cases hf : t.find? (fun p => keyBEq p.1 k) with
  | none => rw [hf] at h; simp at h
  | some p =>
    rw [hf] at h
    simp at h
    exact ⟨p, List.mem_of_find?_eq_some hf, h⟩

theorem mem_of_getElem?_nat {l : List Nat} {i x : Nat}
    (h : l[i]? = some x) : x ∈ l := by
  rcases List.getElem?_eq_some.mp h with ⟨hlt, hx⟩
  exact hx ▸ List.getElem_mem hlt

/-- Invariant of a single `BuildDAGVisitor` run rooted at `ρ` over
starting arena `b`: nodes outside the root's reachable set are
untouched, child slots of reachable nodes keep pointing into the
reachable set, and every table value is a reachable node. -/
structure RunInv (b : Arena) (ρ : Nat) (st : Arena × DagTable) : Prop where
  outside : ∀ m, ¬ Reach b ρ m → st.1[m]? = b[m]?
  closed : ∀ m node, Reach b ρ m → st.1[m]? = some node →
    ∀ c ∈ node.children, Reach b ρ c
  tab : ∀ p ∈ st.2, Reach b ρ p.2

theorem runInv_init (b : Arena) (ρ : Nat) : RunInv b ρ (b, []) := by
  refine ⟨fun m _ => rfl, fun m node hm hget c hc => Reach.step hm hget hc, ?_⟩
  intro p hp
  simp at hp

theorem internSelf_inv {b : Arena} {ρ : Nat} {st : Arena × DagTable}
    {i : Nat} (hst : RunInv b ρ st) (hi : Reach b ρ i) :
    RunInv b ρ (internSelf st i) := by
  unfold internSelf
  cases htl : tableLookup st.2 (keyOf st.1 st.1.length i) with
  | some d => exact hst
  | none =>
    refine ⟨hst.outside, hst.closed, ?_⟩
    intro p hp
    rcases List.mem_cons.mp hp with hp | hp
    · rw [hp]; exact hi
    · exact hst.tab p hp

theorem rewriteSlot_inv {b : Arena} {ρ : Nat} {st : Arena × DagTable}
    {i slot c : Nat} (hst : RunInv b ρ st) (hi : Reach b ρ i)
    (hc : Reach b ρ c) : RunInv b ρ (rewriteSlot st i slot c) := by
  unfold rewriteSlot
  cases htl : tableLookup st.2 (keyOf st.1 st.1.length c) with
  | none =>
    refine ⟨hst.outside, hst.closed, ?_⟩
    intro p hp
    rcases List.mem_cons.mp hp with hp | hp
    · rw [hp]; exact hc
    · exact hst.tab p hp
  | some d =>
    have hd : Reach b ρ d := by
      rcases tableLookup_mem htl with ⟨p, hp, hpd⟩
      exact hpd ▸ hst.tab p hp
    refine ⟨?_, ?_, hst.tab⟩
    · intro m hm
      have hmi : i ≠ m := fun he => hm (he ▸ hi)
      rw [setChild_getElem_ne st.1 i slot d hmi]
      exact hst.outside m hm
    · intro m node' hm hget' e he
      rcases setChild_children_sub hget' with ⟨node, hget, hsub⟩
      rcases hsub e he with hmem | hed
      · exact hst.closed m node hm hget e hmem
      · exact hed ▸ hd

theorem visitSlots_inv_of {b : Arena} {ρ : Nat} (fuel : Nat)
    (hN : ∀ st i, RunInv b ρ st → Reach b ρ i →
      RunInv b ρ (visitNode fuel st i)) :
    ∀ rem st i slot, RunInv b ρ st → Reach b ρ i →
      RunInv b ρ (visitSlots fuel st i slot rem) := by
  intro rem
  induction rem with
  | zero =>
    intro st i slot hst _
    simpa [visitSlots] using hst
  | succ rem ih =>
    intro st i slot hst hi
    cases hsc : (st.1[i]?).bind (fun node => node.children[slot]?) with
    | none => simpa [visitSlots, hsc] using hst
    | some c =>
      rcases Option.bind_eq_some.mp hsc with ⟨node, hget, hslot⟩
      have hcmem : c ∈ node.children := mem_of_getElem?_nat hslot
      have hcr : Reach b ρ c := hst.closed i node hi hget c hcmem
      have hst1 : RunInv b ρ (visitNode fuel st c) := hN st c hst hcr
      have hst2 : RunInv b ρ (rewriteSlot (visitNode fuel st c) i slot c) :=
        rewriteSlot_inv hst1 hi hcr
      simpa [visitSlots, hsc] using ih _ i (slot + 1) hst2 hi

theorem visitNode_inv {b : Arena} {ρ : Nat} :
    ∀ fuel st i, RunInv b ρ st → Reach b ρ i →
      RunInv b ρ (visitNode fuel st i) := by
  intro fuel
  induction fuel with
  | zero =>
    intro st i hst _
    simpa [visitNode] using hst
  | succ fuel ih =>
    intro st i hst hi
    cases hget : st.1[i]? with
    | none => simpa [visitNode, hget] using hst
    | some node =>
      have hslots := visitSlots_inv_of fuel ih node.children.length st i 0 hst hi
      have hfin : RunInv b ρ
          (internSelf (visitSlots fuel st i 0 node.children.length) i) :=
        internSelf_inv hslots hi
      simpa [visitNode, hget] using hfin

theorem visitNode_reach_sub_root (b : Arena) (ρ : Nat) (fuel : Nat) :
    ∀ m, Reach (visitNode fuel (b, []) ρ).1 ρ m → Reach b ρ m := by
  have hinv : RunInv b ρ (visitNode fuel (b, []) ρ) :=
    visitNode_inv fuel (b, []) ρ (runInv_init b ρ) Reach.refl
  intro m hm
  induction hm with
  | refl => exact Reach.refl
  | step hr hget hcmem ih => exact hinv.closed _ _ ih hget _ hcmem

theorem visitNode_reach_sub_other (b : Arena) (ρ r : Nat) (fuel : Nat)
    (hdis : ∀ m, Reach b r m → ¬ Reach b ρ m) :
    ∀ m, Reach (visitNode fuel (b, []) ρ).1 r m → Reach b r m := by
  have hinv : RunInv b ρ (visitNode fuel (b, []) ρ) :=
    visitNode_inv fuel (b, []) ρ (runInv_init b ρ) Reach.refl
  intro m hm
  induction hm with
  | refl => exact Reach.refl
  | step hr hget hcmem ih =>
    have hout := hinv.outside _ (hdis _ ih)
    rw [hout] at hget
    exact Reach.step ih hget hcmem

/-- Reachability in the arena produced so far is bounded by
reachability in the original arena, for every root of the batch. -/
def FoldInv (a : Arena) (roots : List Nat) (b : Arena) : Prop :=
  ∀ r ∈ roots, ∀ m, Reach b r m → Reach a r m

theorem fold_preserves (a : Arena) (roots : List Nat)
    (hdisj : ∀ s1 ∈ roots, ∀ s2 ∈ roots, s1 ≠ s2 →
      ∀ m, Reach a s1 m → Reach a s2 m → False) :
    ∀ rs : List Nat, (∀ x ∈ rs, x ∈ roots) →
      ∀ b, FoldInv a roots b →
        FoldInv a roots
          (rs.foldl (fun acc r => (visitNode acc.length (acc, []) r).1) b) := by
  intro rs
  induction rs with
  | nil => intro _ b hb; simpa [List.foldl] using hb
  | cons ρ rs ih =>
    intro hsub b hb
    have hρ : ρ ∈ roots := hsub ρ (List.mem_cons_self ρ rs)
    have hb' : FoldInv a roots (visitNode b.length (b, []) ρ).1 := by
      intro r hr m hm
      by_cases hrρ : r = ρ
      · subst hrρ
        exact hb r hr m (visitNode_reach_sub_root b r b.length m hm)
      · have hdis : ∀ m', Reach b r m' → ¬ Reach b ρ m' := by
          intro m' h1 h2
          exact hdisj r hr ρ hρ hrρ m' (hb r hr m' h1) (hb ρ hρ m' h2)
        exact hb r hr m (visitNode_reach_sub_other b ρ r b.length hdis m hm)
    have := ih (fun x hx => hsub x (List.mem_cons_of_mem ρ hx))
      (visitNode b.length (b, []) ρ).1 hb'
    simpa [List.foldl] using this

/-- **C9.** `OptimizerVisitor.visit` hands every maximal
statement-level expression to a fresh `BuildDAGVisitor` with a fresh
empty `dag_table` (optimizer.py 4-16, 30-33), so the in-place
re-parenting of child slots (optimizer.py 88) shares nodes only within
a single expression: starting from a well-founded arena whose root
expressions are pairwise node-disjoint — as the tree-shaped parser
output is — no node of the optimized arena is reachable from two
distinct statement roots. -/
theorem dag_optimizer_never_shares_across_statements
    (a : Arena) (roots : List Nat) (hwf : wfArena a = true)
    (hdisj : roots.Pairwise fun s1 s2 =>
      ∀ n ∈ reachL a s1, n ∉ reachL a s2)
    {r1 r2 : Nat} (h1 : r1 ∈ roots) (h2 : r2 ∈ roots) (hne : r1 ≠ r2)
    {n : Nat} (k1 : Reach (optimizeRoots a roots) r1 n)
    (k2 : Reach (optimizeRoots a roots) r2 n) : False := by
  have hsym : Symmetric (fun s1 s2 : Nat =>
      ∀ n ∈ reachL a s1, n ∉ reachL a s2) :=
    fun x y h m hmy hmx => h m hmx hmy
  have hdisj' : ∀ s1 ∈ roots, ∀ s2 ∈ roots, s1 ≠ s2 →
      ∀ m, Reach a s1 m → Reach a s2 m → False := by
    intro s1 hs1 s2 hs2 hsne m hm1 hm2
    exact List.Pairwise.forall hsym hdisj hs1 hs2 hsne m
      (mem_reachL_of_reach hwf hm1) (mem_reachL_of_reach hwf hm2)
  have hfold : FoldInv a roots (optimizeRoots a roots) := by
    have := fold_preserves a roots hdisj' roots (fun x hx => hx) a
      (fun r _ m hm => hm)
    simpa [optimizeRoots] using this
  exact hdisj' r1 h1 r2 h2 hne n (hfold r1 h1 n k1) (hfold r2 h2 n k2)

/-- Arena for the two-statement program fragment `x + y; x + y;`: two
structurally identical statement expressions, rooted at 2 and 5. -/
def dagArenaEx : Arena :=
  [ { kind := AKind.aref "x", children := [] },
    { kind := AKind.aref "y", children := [] },
    { kind := AKind.abinary "+", children := [0, 1] },
    { kind := AKind.aref "x", children := [] },
    { kind := AKind.aref "y", children := [] },
    { kind := AKind.abinary "+", children := [3, 4] } ]

theorem dag_optimizer_never_shares_across_statements_witness :
    wfArena dagArenaEx = true ∧
    (([2, 5] : List Nat).Pairwise fun s1 s2 =>
      ∀ n ∈ reachL dagArenaEx s1, n ∉ reachL dagArenaEx s2) ∧
    (Reach (optimizeRoots dagArenaEx [2, 5]) 2 0 →
      Reach (optimizeRoots dagArenaEx [2, 5]) 5 0 → False) :=
  ⟨by decide, by decide,
   fun k1 k2 =>
     dag_optimizer_never_shares_across_statements dagArenaEx [2, 5]
       (by decide) (by decide) (by decide) (by decide) (by decide) k1 k2⟩

end Sarac
